import Mathlib

/-!
Verification development for the stockfish-cluster job server
(`src/server.py`).  The Python source is shallowly embedded: pure helpers
become Lean functions, the scheduler and record set become explicit state
passing over a step relation, machine behaviour of the engine driver is a
deterministic interpreter over a description of the child process's
behaviour.  Python `int`/`str` values appearing in parsed fields are
modelled by `JsonVal`; Python dicts keeping insertion order are modelled
by association lists with in-place update (`pySet`).
-/

namespace SFCluster

/-- Job status enum, `JOB_PENDING = 0` (server.py lines 34-40). -/
def JOB_PENDING : Int := 0

/-- Job status enum, `JOB_QUEUED = 1`. -/
def JOB_QUEUED : Int := 1

/-- Job status enum, `JOB_RUNNING = 2`. -/
def JOB_RUNNING : Int := 2

/-- Job status enum, `JOB_FINISHED = 3`. -/
def JOB_FINISHED : Int := 3

/-- Job status enum, `JOB_ERROR = 4`. -/
def JOB_ERROR : Int := 4

/-- Job status enum, `JOB_CANCELLED = 5`. -/
def JOB_CANCELLED : Int := 5

/-- Job status enum, `JOB_STOPPED = 6`. -/
def JOB_STOPPED : Int := 6

/-- A JSON scalar value as stored in parsed engine fields: a Python `int`
or `str` (`JsonVal = Union[int, str]` in server.py line 48). -/
inductive JsonVal where
  | i (n : Int)
  | s (v : String)
deriving DecidableEq, Repr

/-- A Python dict `str -> JsonVal`, modelled as an association list in
insertion order (Python dicts preserve insertion order). -/
abbrev FieldDict := List (String × JsonVal)

/-- Python `k in d` for a dict. -/
def hasKey (d : FieldDict) (k : String) : Bool :=
  d.any (fun p => p.1 == k)

/-- Python `d.get(k)` returning the first (unique) binding. -/
def dGet (d : FieldDict) (k : String) : Option JsonVal :=
  match d with
  | [] => none
  | (k', v) :: rest => if k' == k then some v else dGet rest k

/-- Python `d[k] = v`: overwrite in place if the key is present (keeping
its position in insertion order), otherwise append. -/
def pySet (d : FieldDict) (k : String) (v : JsonVal) : FieldDict :=
  if hasKey d k then d.map (fun p => if p.1 == k then (k, v) else p)
  else d ++ [(k, v)]

/-- Python `a.update(b)` for dicts. -/
def pyUpdate (a b : FieldDict) : FieldDict :=
  b.foldl (fun acc p => pySet acc p.1 p.2) a

/-- Python truthiness of a dict: non-empty. -/
def dTruthy (d : FieldDict) : Bool := !d.isEmpty

/-- Python `a or b` for dicts (left operand when truthy, else right). -/
def pyOrD (a b : FieldDict) : FieldDict := if dTruthy a then a else b

/-- Python `a or b` for ints. -/
def pyOrInt (a b : Int) : Int := if a = 0 then b else a

/-- Python `a or b` for strings. -/
def pyOrStr (a b : String) : String := if a = "" then b else a

/-- The decimal digit character for `d < 10`. -/
def digitChar (d : Nat) : Char := Char.ofNat (48 + d)

/-- Decimal digits of a natural number, most significant first, with
explicit fuel so the definition computes by kernel reduction; `fuel` is
adequate as soon as `n < fuel`. -/
def natDigitsF : Nat → Nat → List Char
  | 0, _ => []
  | fuel + 1, n =>
    if n < 10 then [digitChar n]
    else natDigitsF fuel (n / 10) ++ [digitChar (n % 10)]

/-- Decimal digits of a natural number, most significant first
(models Python `str` on a non-negative int). -/
def natDigits (n : Nat) : List Char := natDigitsF (n + 1) n

/-- Python `str` on a non-negative int. -/
def pyStrOfNat (n : Nat) : String := String.mk (natDigits n)

/-- Python `str` on an int (models `str(k)` and f-string interpolation of
ints in server.py). -/
def pyStrOfInt : Int → String
  | Int.ofNat n => pyStrOfNat n
  | Int.negSucc n => "-" ++ pyStrOfNat (n + 1)

/-- Numeric value of a decimal digit character, if it is one. -/
def digitVal (c : Char) : Option Nat :=
  if 48 ≤ c.toNat ∧ c.toNat ≤ 57 then some (c.toNat - 48) else none

/-- Digit-run parser for Python `int(str)`: decimal digits where a single
underscore may separate two digits (CPython literal grammar). -/
def parseDigitsCore (acc : Nat) : List Char → Option Nat
  | [] => some acc
  | c :: rest =>
    if c = '_' then
      match rest with
      | [] => none
      | c2 :: rest2 =>
        match digitVal c2 with
        | some d => parseDigitsCore (acc * 10 + d) rest2
        | none => none
    else
      match digitVal c with
      | some d => parseDigitsCore (acc * 10 + d) rest
      | none => none

/-- Parse a non-empty digit run (underscored allowed between digits, not
leading). -/
def parseDigitsUS (l : List Char) : Option Nat :=
  match l with
  | [] => none
  | c :: _ =>
    if c = '_' then none
    else parseDigitsCore 0 l

/-- Strip ASCII whitespace from both ends of a character list (models the
whitespace tolerance of Python `int(str)` and `str.strip()`). -/
def stripWS (l : List Char) : List Char :=
  ((l.dropWhile Char.isWhitespace).reverse.dropWhile Char.isWhitespace).reverse

/-- Python `int(s)` on a string: optional surrounding whitespace, optional
sign, decimal digits with optional single underscores between digits;
`none` models the `ValueError` raise. -/
def pyInt? (s : String) : Option Int :=
  match stripWS s.data with
  | '-' :: rest => (parseDigitsUS rest).map (fun n => -(n : Int))
  | '+' :: rest => (parseDigitsUS rest).map (fun n => (n : Int))
  | cs => (parseDigitsUS cs).map (fun n => (n : Int))

/-- Python `s.split()` (no separator): split on runs of whitespace,
discarding empty pieces.  `cur` holds the current token reversed. -/
def wsSplitAux : List Char → List Char → List String
  | [], cur => if cur.isEmpty then [] else [String.mk cur.reverse]
  | c :: rest, cur =>
    if c.isWhitespace then
      if cur.isEmpty then wsSplitAux rest []
      else String.mk cur.reverse :: wsSplitAux rest []
    else wsSplitAux rest (c :: cur)

/-- Python `line.split()`. -/
def pyTokens (s : String) : List String := wsSplitAux s.data []

/-- Python `s.strip()`. -/
def pyStrip (s : String) : String := String.mk (stripWS s.data)

/-- Python `s.startswith(pre)`. -/
def pyStartsWith (s pre : String) : Bool := pre.data.isPrefixOf s.data

/-- Python `" ".join(l)`. -/
def joinSp : List String → String
  | [] => ""
  | [t] => t
  | t :: rest => t ++ " " ++ joinSp rest

/-- The message of the `ValueError` Python's `int()` raises on a bad
literal. -/
def intErr (tok : String) : String :=
  "invalid literal for int() with base 10: '" ++ tok ++ "'"

/-- The token scanner of `parse_info_line` (server.py lines 225-257): the
`while` loop over `tokens`, in list form.  A recognised keyword with its
value token(s) present consumes them; `int()` failure is a raise
(`Except.error`); any other token is skipped by advancing one token;
`pv` consumes the rest of the line and stops.  When exactly one token is
left, every keyword branch of the loop body has an unsatisfied
`i + 1 < len(tokens)` guard, so the token is skipped and the loop ends
with `out` unchanged. -/
def scanInfo : List String → FieldDict → Except String FieldDict
  | [], out => Except.ok out
  | [_], out => Except.ok out
  | tok :: v :: rest2, out =>
    if tok = "depth" then
      if (pyInt? v).isSome then
        scanInfo rest2 (pySet out "depth" (JsonVal.i ((pyInt? v).getD 0)))
      else Except.error (intErr v)
    else if tok = "seldepth" then
      if (pyInt? v).isSome then
        scanInfo rest2 (pySet out "seldepth" (JsonVal.i ((pyInt? v).getD 0)))
      else Except.error (intErr v)
    else if tok = "score" then
      match rest2 with
      | sval :: rest3 =>
        if v = "cp" then
          if (pyInt? sval).isSome then
            scanInfo rest3 (pySet out "score_cp" (JsonVal.i ((pyInt? sval).getD 0)))
          else Except.error (intErr sval)
        else if v = "mate" then
          if (pyInt? sval).isSome then
            scanInfo rest3 (pySet out "score_mate" (JsonVal.i ((pyInt? sval).getD 0)))
          else Except.error (intErr sval)
        else scanInfo rest3 out
      -- `i + 2 < len(tokens)` fails: "score" is skipped, and its single
      -- follower is then the last token, likewise skipped, ending the loop
      | [] => Except.ok out
    else if tok = "nodes" then
      if (pyInt? v).isSome then
        scanInfo rest2 (pySet out "nodes" (JsonVal.i ((pyInt? v).getD 0)))
      else Except.error (intErr v)
    else if tok = "nps" then
      if (pyInt? v).isSome then
        scanInfo rest2 (pySet out "nps" (JsonVal.i ((pyInt? v).getD 0)))
      else Except.error (intErr v)
    else if tok = "multipv" then
      if (pyInt? v).isSome then
        scanInfo rest2 (pySet out "multipv" (JsonVal.i ((pyInt? v).getD 0)))
      else Except.error (intErr v)
    else if tok = "pv" then
      Except.ok (pySet out "pv" (JsonVal.s (joinSp (v :: rest2))))
    else scanInfo (v :: rest2) out

/-- `parse_info_line` (server.py lines 220-257).  `Except.error` models a
`ValueError` raised by an `int()` conversion escaping the function. -/
def parse_info_line (line : String) : Except String FieldDict :=
  scanInfo (pyTokens line) []

/-- `parse_bestmove_line` (server.py lines 260-264). -/
def parse_bestmove_line (line : String) : FieldDict :=
  match pyTokens line with
  | _ :: second :: _ => [("bestmove", JsonVal.s second)]
  | _ => []

/-- The keyword tokens the `parse_info_line` scanner recognises. -/
def infoKeywords : List String :=
  ["depth", "seldepth", "score", "nodes", "nps", "multipv", "pv"]

/-- Control-flow mirror of `scanInfo`: `true` iff every `int()` the
scanner performs on these tokens succeeds (so the scan cannot raise). -/
def goodInfo : List String → Bool
  | [] => true
  | [_] => true
  | tok :: v :: rest2 =>
    if tok = "depth" ∨ tok = "seldepth" ∨ tok = "nodes" ∨ tok = "nps" ∨
        tok = "multipv" then
      (pyInt? v).isSome && goodInfo rest2
    else if tok = "score" then
      match rest2 with
      | sval :: rest3 =>
        (if v = "cp" ∨ v = "mate" then (pyInt? sval).isSome else true)
          && goodInfo rest3
      | [] => true
    else if tok = "pv" then true
    else goodInfo (v :: rest2)

/-- Accumulate the value of a digit-character run (used to state the
correctness of `parseDigitsCore`). -/
def digitsFold (acc : Nat) (l : List Char) : Nat :=
  l.foldl (fun a c => a * 10 + ((digitVal c).getD 0)) acc

/-- `PendingJob` (server.py lines 267-274). -/
structure PendingJob where
  job_id : String
  opponent : String
  fen : String
  limit_type : Int
  limit_value : Int
  multipv : Int
deriving DecidableEq, Repr

/-- One `job_update` emission handed to `send_job_update`: status, fields
and optional log line. -/
structure Upd where
  status : Int
  fields : FieldDict
  logLine : Option String
deriving DecidableEq, Repr

/-- Description of the world one `EngineJobRunner.run` call interacts
with: whether the spawn raises (with what message), which 0-based `send`
raises (with what message), the lines the child writes to stdout
(exhaustion of the list = EOF), and from which streaming-loop iteration
on `cancel_event.is_set()` returns true. -/
structure EngineWorld where
  spawnErr : Option String
  writeErrAt : Option (Nat × String)
  lines : List String
  cancelAt : Option Nat
deriving DecidableEq, Repr

/-- Whether `cancel_event.is_set()` holds at streaming iteration `iter`
(the event is level-triggered: once set it stays set). -/
def cancelOn (w : EngineWorld) (iter : Nat) : Bool :=
  match w.cancelAt with
  | some k => k ≤ iter
  | none => false

/-- Result of `run()`: the returned status and fields, the updates
emitted through `send_job_update`, the commands written to the child's
stdin, the exception message when the `except` path ran, and the raw
line that triggered the bestmove branch when the loop ended there. -/
structure RunResult where
  status : Int
  fields : FieldDict
  updates : List Upd
  sent : List String
  errMsg : Option String
  bmLine : Option String
deriving DecidableEq, Repr

/-- `send(cmd)` (server.py lines 340-342): write one command line to the
child, or raise when the world makes this (0-based) write fail. -/
def sendCmdS (w : EngineWorld) (sent : List String) (cmd : String) :
    Except (List String × String) (List String) :=
  match w.writeErrAt with
  | some (k, msg) =>
    if sent.length = k then Except.error (sent, msg)
    else Except.ok (sent ++ [cmd])
  | none => Except.ok (sent ++ [cmd])

/-- The `while True: readline; compare stripped line` loops of the UCI
init (server.py lines 346-351 and 363-368): consume stdout lines until
one strips to `target`; EOF raises `eofMsg`. -/
def readUntil (target eofMsg : String) :
    List String → Except String (List String)
  | [] => Except.error eofMsg
  | l :: rest =>
    if pyStrip l = target then Except.ok rest
    else readUntil target eofMsg rest

/-- The `go` command chosen from `limit_type` (server.py lines 373-380). -/
def goCmd (job : PendingJob) : String :=
  if job.limit_type = 0 then "go depth " ++ pyStrOfInt job.limit_value
  else if job.limit_type = 1 then "go movetime " ++ pyStrOfInt job.limit_value
  else if job.limit_type = 2 then "go nodes " ++ pyStrOfInt job.limit_value
  else "go depth 20"

/-- The UCI init section of `run()` (server.py lines 345-381): `uci` /
wait `uciok`, optional Threads option, MultiPV option (`int(multipv or
1)` clamped below at 1), `isready` / wait `readyok`, `ucinewgame`,
`position fen`, and the `go` command.  It only ever appends to the sent
command list; errors carry the commands sent so far.  Returns the sent
commands and the stdout lines not yet consumed. -/
def initPhase (w : EngineWorld) (threads : Int) (job : PendingJob) :
    Except (List String × String) (List String × List String) := do
  let sent1 ← sendCmdS w [] "uci"
  let lines1 ← match readUntil "uciok" "Engine closed stdout during UCI init" w.lines with
    | Except.error m => Except.error (sent1, m)
    | Except.ok l => pure l
  let sent2 ← if threads > 0 then
      sendCmdS w sent1 ("setoption name Threads value " ++ pyStrOfInt threads)
    else pure sent1
  let m0 := pyOrInt job.multipv 1
  let m := if m0 < 1 then 1 else m0
  let sent3 ← sendCmdS w sent2 ("setoption name MultiPV value " ++ pyStrOfInt m)
  let sent4 ← sendCmdS w sent3 "isready"
  let lines2 ← match readUntil "readyok" "Engine closed stdout during isready" lines1 with
    | Except.error m => Except.error (sent4, m)
    | Except.ok l => pure l
  let sent5 ← sendCmdS w sent4 "ucinewgame"
  let sent6 ← sendCmdS w sent5 ("position fen " ++ job.fen)
  let sent7 ← sendCmdS w sent6 (goCmd job)
  pure (sent7, lines2)

/-- Python `int(x)` on a field value (a driver field value is always an
int here: `parse_info_line` stores `multipv` as an int). -/
def jvToInt (v : JsonVal) : Int :=
  match v with
  | JsonVal.i n => n
  | JsonVal.s t => (pyInt? t).getD 0

/-- Lookup in an int-keyed dict (the runner-local `last_by_mpv`). -/
def iGet (m : List (Int × FieldDict)) (k : Int) : Option FieldDict :=
  match m with
  | [] => none
  | (k2, v) :: rest => if k2 = k then some v else iGet rest k

/-- `m[k] = v` for an int-keyed dict. -/
def iSet (m : List (Int × FieldDict)) (k : Int) (v : FieldDict) :
    List (Int × FieldDict) :=
  if m.any (fun p => p.1 == k) then
    m.map (fun p => if p.1 == k then (k, v) else p)
  else m ++ [(k, v)]

/-- Intermediate state of the streaming loop: commands sent, updates
emitted, and the runner-local `last_by_mpv` (server.py line 328). -/
structure DrvSt where
  sent : List String
  updates : List Upd
  lastByMpv : List (Int × FieldDict)
deriving DecidableEq, Repr

/-- The `except` path of `run()` (server.py lines 420-424): emit one
terminal ERROR update with empty fields and log line
`[job <id>] Error: <message>`, and return `(JOB_ERROR, {})`. -/
def errorResult (jobId : String) (st : DrvSt) (msg : String) : RunResult :=
  { status := JOB_ERROR
    fields := []
    updates := st.updates ++
      [⟨JOB_ERROR, [], some ("[job " ++ jobId ++ "] Error: " ++ msg)⟩]
    sent := st.sent
    errMsg := some msg
    bmLine := none }

/-- The cancel check at the top of each streaming-loop iteration
(server.py lines 385-386): when `cancel_event.is_set()`, send `stop`
(there is no sent-once guard, so this runs on every iteration on which
the event is set). -/
def stopCheck (w : EngineWorld) (iter : Nat) (sent : List String) :
    Except (List String × String) (List String) :=
  if cancelOn w iter then sendCmdS w sent "stop" else Except.ok sent

/-- The streaming loop of `run()` (server.py lines 384-418).  `iter`
counts loop iterations (clocking the cancel flag); recursion is on the
remaining stdout lines.  Every iteration first runs the cancel check
(which may send `stop`, or raise on a write failure), then reads a
line: EOF raises; an empty stripped line is skipped; an `info` line is
parsed and merged into `last_by_mpv` and a RUNNING update emitted; a
`bestmove` line emits the terminal update (CANCELLED when the cancel
event is set, else FINISHED) and returns; any other line is ignored. -/
def streamLoop (w : EngineWorld) (jobId : String) :
    List String → Nat → DrvSt → RunResult
  | [], iter, st0 =>
    (match stopCheck w iter st0.sent with
     | Except.error (_, msg) => errorResult jobId st0 msg
     | Except.ok sent1 =>
       errorResult jobId { st0 with sent := sent1 }
         "Engine terminated unexpectedly")
  | line :: rest, iter, st0 =>
    (match stopCheck w iter st0.sent with
     | Except.error (_, msg) => errorResult jobId st0 msg
     | Except.ok sent1 =>
       let st : DrvSt := { st0 with sent := sent1 }
       let s := pyStrip line
       if s = "" then streamLoop w jobId rest (iter + 1) st
       else if pyStartsWith s "info" then
         match parse_info_line s with
         | Except.error msg => errorResult jobId st msg
         | Except.ok parsed =>
           let mpv := jvToInt ((dGet parsed "multipv").getD (JsonVal.i 1))
           let cur := pySet (pyUpdate ((iGet st.lastByMpv mpv).getD [])
             parsed) "multipv" (JsonVal.i mpv)
           streamLoop w jobId rest (iter + 1)
             { st with lastByMpv := iSet st.lastByMpv mpv cur
                       updates := st.updates ++
                         [⟨JOB_RUNNING, cur, some s⟩] }
       else if pyStartsWith s "bestmove" then
         let bm := parse_bestmove_line s
         let finalStatus := if cancelOn w iter then JOB_CANCELLED
           else JOB_FINISHED
         let fields := pySet (pyUpdate ((iGet st.lastByMpv 1).getD []) bm)
           "multipv" (JsonVal.i 1)
         { status := finalStatus
           fields := fields
           updates := st.updates ++ [⟨finalStatus, fields, some s⟩]
           sent := st.sent
           errMsg := none
           bmLine := some s }
       else streamLoop w jobId rest (iter + 1) st)

/-- `EngineJobRunner.run` (server.py lines 323-436): spawn, UCI init,
then the streaming loop.  The `finally` block (child reaping, lines
425-435) performs no observable state change in this model. -/
def runDriver (w : EngineWorld) (threads : Int) (job : PendingJob) :
    RunResult :=
  match w.spawnErr with
  | some msg => errorResult job.job_id ⟨[], [], []⟩ msg
  | none =>
    match initPhase w threads job with
    | Except.error (sent, msg) => errorResult job.job_id ⟨sent, [], []⟩ msg
    | Except.ok (sent, lines) => streamLoop w job.job_id lines 0 ⟨sent, [], []⟩

/-- Terminal job statuses (spec section 4.5). -/
def isTerminal (st : Int) : Bool :=
  st == JOB_FINISHED || st == JOB_ERROR || st == JOB_CANCELLED ||
    st == JOB_STOPPED

/-- Number of `stop` commands among the sent commands. -/
def countStop (sent : List String) : Nat :=
  (sent.filter (fun c => c == "stop")).length

/-- Number of terminal updates in an emission list. -/
def countTerminalUpd (updates : List Upd) : Nat :=
  (updates.filter (fun u => isTerminal u.status)).length

/-- A fixed job used for concrete driver runs. -/
def jobW : PendingJob := ⟨"j1", "", "FEN0", 0, 4, 1⟩

/-- World family for cancellation runs: spawn ok, no write failure,
cancel requested before the streaming loop, `n` info lines and then a
bestmove on stdout. -/
def cancelWorld (n : Nat) : EngineWorld :=
  ⟨none, none, "uciok" :: "readyok" ::
    (List.replicate n "info depth 1 pv e2e4" ++ ["bestmove e2e4"]), some 0⟩

/-- Key of an in-memory `last_by_mpv` mapping: a Python int at runtime,
or a string after rehydration from the JSON blob (whose object keys lost
their integer type). -/
inductive MKey where
  | i (n : Int)
  | s (v : String)
deriving DecidableEq, Repr

/-- The `last_by_mpv` mapping of a record. -/
abbrev MpvMap := List (MKey × FieldDict)

/-- Python `m.get(k)` on `last_by_mpv`. -/
def mGet (m : MpvMap) (k : MKey) : Option FieldDict :=
  match m with
  | [] => none
  | (k2, v) :: rest => if k2 = k then some v else mGet rest k

/-- Python `m.get(k, {})`. -/
def mGetD (m : MpvMap) (k : MKey) : FieldDict := (mGet m k).getD []

/-- Python `m[k] = v` on `last_by_mpv`. -/
def mSet (m : MpvMap) (k : MKey) (v : FieldDict) : MpvMap :=
  if m.any (fun p => p.1 == k) then
    m.map (fun p => if p.1 == k then (k, v) else p)
  else m ++ [(k, v)]

/-- `JobRecord` (server.py lines 277-310).  `hist` is a ghost field
recording every status value the record has taken, newest last (the code
stores only the current `status`); all other fields are the dataclass
fields.  The bounded log (`deque(maxlen=2000)`) is a list capped by
`recAppendLog`. -/
structure JobRecord where
  job_id : String
  opponent : String
  fen : String
  limit_type : Int
  limit_value : Int
  multipv : Int
  status : Int
  created_at_ms : Int
  started_at_ms : Option Int
  finished_at_ms : Option Int
  last_update_ms : Int
  last_by_mpv : MpvMap
  bestmove : String
  log : List String
  hist : List Int
deriving DecidableEq, Repr

/-- `JobRecord.append_log` (server.py lines 308-310) together with the
`deque(maxlen=2000)` bound: skip empty lines, drop the oldest entries
beyond 2000. -/
def recAppendLog (rec : JobRecord) (line : String) : JobRecord :=
  if line = "" then rec
  else
    let l := rec.log ++ [line]
    { rec with log := l.drop (l.length - 2000) }

/-- One row of the `jobs` table (schema, server.py lines 78-95).
`last_by_mpv_json` models the decoded form of the JSON blob written by
`upsert_job`: object keys are strings. -/
structure JobRow where
  id : String
  opponent : String
  fen : String
  limit_type : Int
  limit_value : Int
  multipv : Int
  status : Int
  created_at_ms : Int
  started_at_ms : Option Int
  finished_at_ms : Option Int
  last_update_ms : Int
  bestmove : String
  last_by_mpv_json : List (String × FieldDict)
deriving DecidableEq, Repr

/-- The SQLite store (`JobStore`): the `jobs` table, one row per id, and
the append-only `job_logs` table. -/
structure Store where
  jobs : List JobRow
  logs : List (String × Int × String)
deriving DecidableEq, Repr

/-- How `json.dumps` renders a `last_by_mpv` key: ints are stringified. -/
def mkeyStr : MKey → String
  | MKey.i n => pyStrOfInt n
  | MKey.s v => v

/-- The row `upsert_job` writes for a record (server.py lines 108-147),
with `last_by_mpv` serialised through `json.dumps` (keys stringified). -/
def upsertRow (rec : JobRecord) : JobRow :=
  { id := rec.job_id
    opponent := rec.opponent
    fen := rec.fen
    limit_type := rec.limit_type
    limit_value := rec.limit_value
    multipv := rec.multipv
    status := rec.status
    created_at_ms := rec.created_at_ms
    started_at_ms := rec.started_at_ms
    finished_at_ms := rec.finished_at_ms
    last_update_ms := rec.last_update_ms
    bestmove := rec.bestmove
    last_by_mpv_json := rec.last_by_mpv.map (fun p => (mkeyStr p.1, p.2)) }

/-- `JobStore.upsert_job`: insert or replace by primary key `id`. -/
def upsert_job (st : Store) (rec : JobRecord) : Store :=
  if st.jobs.any (fun r => r.id == rec.job_id) then
    { st with jobs := st.jobs.map (fun r =>
        if r.id == rec.job_id then upsertRow rec else r) }
  else { st with jobs := st.jobs ++ [upsertRow rec] }

/-- `JobStore.append_log` (server.py lines 149-157): skip empty lines,
else append one `job_logs` row. -/
def append_log (st : Store) (job_id : String) (ts : Int) (line : String) :
    Store :=
  if line = "" then st
  else { st with logs := st.logs ++ [(job_id, ts, line)] }

/-- Statuses the startup reconciliation treats as incomplete
(`PENDING`, `QUEUED`, `RUNNING`; server.py lines 196-197). -/
def incompleteStatus (st : Int) : Bool :=
  st == JOB_PENDING || st == JOB_QUEUED || st == JOB_RUNNING

/-- `JobStore.mark_incomplete_as_error` (server.py lines 189-211):
collect the ids of rows in an incomplete status; if none, do nothing;
else set those rows to ERROR, `finished_at_ms = COALESCE(finished_at_ms,
now)`, `last_update_ms = now`.  Returns the affected ids and the new
store. -/
def mark_incomplete_as_error (now : Int) (st : Store) :
    List String × Store :=
  let ids := (st.jobs.filter (fun r => incompleteStatus r.status)).map
    (fun r => r.id)
  if ids.isEmpty then ([], st)
  else (ids, { st with jobs := st.jobs.map (fun r =>
    if incompleteStatus r.status then
      { r with status := JOB_ERROR
               finished_at_ms := some (r.finished_at_ms.getD now)
               last_update_ms := now }
    else r) })

/-- The startup reconciliation in `ClusterServer.__init__` (server.py
lines 461-469): run `mark_incomplete_as_error(now)` and append the log
line `[server] restart: job aborted` for each returned id. -/
def startupReconcile (now : Int) (st : Store) : List String × Store :=
  let p := mark_incomplete_as_error now st
  (p.1, p.1.foldl (fun acc id =>
    append_log acc id now "[server] restart: job aborted") p.2)

/-- `ClusterServer._row_to_record` (server.py lines 498-515).  `now`
models the `epoch_ms()` read used as the default for a zero or NULL
`created_at_ms`.  The rehydrated `last_by_mpv` has string keys (the JSON
object keys). -/
def row_to_record (now : Int) (row : JobRow) : JobRecord :=
  { job_id := row.id
    opponent := pyOrStr row.opponent ""
    fen := pyOrStr row.fen ""
    limit_type := pyOrInt row.limit_type 0
    limit_value := pyOrInt row.limit_value 0
    multipv := pyOrInt row.multipv 1
    status := pyOrInt row.status JOB_PENDING
    created_at_ms := pyOrInt row.created_at_ms now
    started_at_ms := row.started_at_ms
    finished_at_ms := row.finished_at_ms
    last_update_ms := pyOrInt row.last_update_ms (pyOrInt row.created_at_ms now)
    last_by_mpv := row.last_by_mpv_json.map (fun p => (MKey.s p.1, p.2))
    bestmove := pyOrStr row.bestmove ""
    log := []
    hist := [pyOrInt row.status JOB_PENDING] }

/-- The external view `_record_to_dict` produces (server.py lines
630-667). -/
structure JobView where
  id : String
  opponent : String
  fen : String
  limit_type : Int
  limit_value : Int
  multipv : Int
  status : Int
  created_at_ms : Int
  started_at_ms : Option Int
  finished_at_ms : Option Int
  last_update_ms : Int
  snapshot : FieldDict
  lines : List FieldDict
  log_tail : List String
deriving DecidableEq, Repr

/-- `int(k)` applied to a `last_by_mpv` key in `_record_to_dict` (lines
635-639): ints pass through, strings are parsed, failures are skipped. -/
def keyToInt : MKey → Option Int
  | MKey.i n => some n
  | MKey.s v => pyInt? v

/-- Insertion into a sorted int list (models Python `sorted`). -/
def insertSorted (x : Int) : List Int → List Int
  | [] => [x]
  | y :: ys => if x ≤ y then x :: y :: ys else y :: insertSorted x ys

/-- Ascending sort of an int list. -/
def sortInts (l : List Int) : List Int := l.foldr insertSorted []

/-- Distinct elements of an int list (models Python `set`; the order is
then canonicalised by `sortInts`). -/
def dedupInts : List Int → List Int
  | [] => []
  | x :: xs => let r := dedupInts xs; if x ∈ r then r else x :: r

/-- Python `lst[-n:]` as used for the log tail (line 666): for `n > 0`
the last `n` elements; `lst[-0:]` is the whole list; a negative
`log_tail` drops from the front. -/
def pySliceTail (l : List String) (n : Int) : List String :=
  if 0 < n then l.drop (l.length - n.toNat)
  else l.drop (-n).toNat

/-- `ClusterServer._record_to_dict` (server.py lines 630-667): the
`lines` array collects, for each int-convertible multipv key in
ascending sorted order, `last_by_mpv.get(mpv, {}) or
last_by_mpv.get(str(mpv), {}) or {}` with `multipv` forced; `snapshot`
is the same for key 1 (string form `"1"`), with `bestmove` overlaid when
non-empty and `multipv = 1` forced when non-empty. -/
def record_to_dict (rec : JobRecord) (log_tail : Int) : JobView :=
  let mpvKeys := (rec.last_by_mpv.map (fun p => p.1)).filterMap keyToInt
  let lines := (sortInts (dedupInts mpvKeys)).map (fun mpv =>
    pySet (pyOrD (pyOrD (mGetD rec.last_by_mpv (MKey.i mpv))
        (mGetD rec.last_by_mpv (MKey.s (pyStrOfInt mpv)))) [])
      "multipv" (JsonVal.i mpv))
  let snap0 := pyOrD (pyOrD (mGetD rec.last_by_mpv (MKey.i 1))
    (mGetD rec.last_by_mpv (MKey.s "1"))) []
  let snap1 := if rec.bestmove ≠ "" then
    pySet snap0 "bestmove" (JsonVal.s rec.bestmove) else snap0
  let snap := if dTruthy snap1 then pySet snap1 "multipv" (JsonVal.i 1)
    else snap1
  { id := rec.job_id
    opponent := rec.opponent
    fen := rec.fen
    limit_type := rec.limit_type
    limit_value := rec.limit_value
    multipv := rec.multipv
    status := rec.status
    created_at_ms := rec.created_at_ms
    started_at_ms := rec.started_at_ms
    finished_at_ms := rec.finished_at_ms
    last_update_ms := rec.last_update_ms
    snapshot := snap
    lines := lines
    log_tail := pySliceTail rec.log log_tail }

/-- Whether a `last_by_mpv` key is (still) a Python int. -/
def keyIsInt : MKey → Bool
  | MKey.i _ => true
  | MKey.s _ => false

/-- A concrete record with integer multipv keys, used as the round-trip
witness. -/
def recW : JobRecord :=
  ⟨"j1", "opp", "fen1", 1, 30, 2, 3, 10, some 11, some 12, 13,
   [(MKey.i 1, [("depth", JsonVal.i 5), ("pv", JsonVal.s "e2e4")]),
    (MKey.i 2, [("depth", JsonVal.i 4)])],
   "e2e4", ["l1", "l2"], [0, 2, 3]⟩

/-- Phase of an `EngineJobRunner` task as the scheduler observes it:
`spawned` (placed in `active` by `submit_job` or `_try_start_next`, its
`_run_job` task not yet run), `running` (the RUNNING `"started"` update
has been emitted), `done` (`run()` returned, terminal update emitted,
the `finally` of `_run_job` not yet executed). -/
inductive Phase where
  | spawned
  | running
  | done
deriving DecidableEq, Repr

/-- One entry of the `active` map: the job id, the runner task's phase,
and the runner's level-triggered cancel flag. -/
structure Runner where
  jobId : String
  phase : Phase
  cancelled : Bool
deriving DecidableEq, Repr

/-- The shared server state guarded by `ClusterServer._lock`: the record
set `job_records`, the `active` map, the `pending` deque, the configured
`max_jobs`, the store, and a ghost `clock` holding the last `epoch_ms()`
read (wall time is assumed monotone). -/
structure Srv where
  records : List (String × JobRecord)
  active : List Runner
  pending : List PendingJob
  maxJobs : Int
  store : Store
  clock : Int
deriving DecidableEq, Repr

/-- A freshly constructed server with no records (no `--db` preload). -/
def initSrv (maxJobs : Int) : Srv := ⟨[], [], [], maxJobs, ⟨[], []⟩, 0⟩

/-- Python `job_records.get(id)`. -/
def rGet (rs : List (String × JobRecord)) (id : String) : Option JobRecord :=
  match rs with
  | [] => none
  | (k, r) :: rest => if k == id then some r else rGet rest id

/-- Python `job_records[id] = rec`: overwrite in place when the key is
present (keys are unique in a Python dict), else append. -/
def rSet (rs : List (String × JobRecord)) (id : String) (rec : JobRecord) :
    List (String × JobRecord) :=
  match rs with
  | [] => [(id, rec)]
  | (k, r) :: rest =>
    if k == id then (id, rec) :: rest else (k, r) :: rSet rest id rec

/-- `JobRecord(job_id=job_id)` with dataclass defaults (server.py line
584): both timestamp factories read the clock; `tc` is the later read
(the record is created after `ts` was captured at line 578). -/
def newRecord (job_id : String) (tc : Int) : JobRecord :=
  ⟨job_id, "", "", 0, 0, 1, JOB_PENDING, tc, none, none, tc, [], "", [],
   [JOB_PENDING]⟩

/-- The record `submit_job` creates (server.py lines 712-719). -/
def submitRecord (job : PendingJob) (t : Int) : JobRecord :=
  ⟨job.job_id, job.opponent, job.fen, job.limit_type, job.limit_value,
   pyOrInt job.multipv 1, JOB_PENDING, t, none, none, t, [], "", [],
   [JOB_PENDING]⟩

/-- Python truthiness of a field value. -/
def jvTruthy : JsonVal → Bool
  | JsonVal.i n => n != 0
  | JsonVal.s v => v != ""

/-- Python `str(x)` on a field value. -/
def jvStr : JsonVal → String
  | JsonVal.i n => pyStrOfInt n
  | JsonVal.s v => v

/-- `int(fields.get("multipv", 1) or 1) if fields else 1` (server.py
line 595). -/
def mpvOfFields (fields : FieldDict) : Int :=
  if fields = [] then 1
  else
    let v := (dGet fields "multipv").getD (JsonVal.i 1)
    jvToInt (if jvTruthy v then v else JsonVal.i 1)

/-- The in-place record mutation of `send_job_update` (server.py lines
587-606): set status (the ghost `hist` records it), stamp
`last_update_ms` with `ts`, set `started_at_ms` on the first RUNNING and
`finished_at_ms` on the first terminal status, merge non-empty fields
into `last_by_mpv` re-stamping `multipv`, overwrite `bestmove` when
present in the fields, and append the log line to the bounded log.
The source mutates the record statement by statement; each mutation
reads only fields the earlier statements left unchanged, so the
field-parallel record below is the same function. -/
def updateRecord (ts : Int) (status : Int) (fields : FieldDict)
    (log_line : Option String) (rec0 : JobRecord) : JobRecord :=
  let mpv := mpvOfFields fields
  { rec0 with
    status := status
    hist := rec0.hist ++ [status]
    last_update_ms := ts
    started_at_ms := (if status = JOB_RUNNING ∧ rec0.started_at_ms = none
      then some ts else rec0.started_at_ms)
    finished_at_ms := (if isTerminal status ∧ rec0.finished_at_ms = none
      then some ts else rec0.finished_at_ms)
    last_by_mpv := (if fields ≠ [] then
        mSet rec0.last_by_mpv (MKey.i mpv)
          (pySet (pyUpdate (mGetD rec0.last_by_mpv (MKey.i mpv)) fields)
            "multipv" (JsonVal.i mpv))
      else rec0.last_by_mpv)
    bestmove := (if hasKey fields "bestmove" then
        jvStr ((dGet fields "bestmove").getD (JsonVal.s ""))
      else rec0.bestmove)
    log := (match log_line with
      | some l =>
        if l = "" then rec0.log
        else
          let l2 := rec0.log ++ [l]
          l2.drop (l2.length - 2000)
      | none => rec0.log) }

/-- `ClusterServer.send_job_update` (server.py lines 570-628).  `ts` is
the `epoch_ms()` read at line 578; `tc` is the later read the
`JobRecord` default factory performs when the id is not yet in the
record set (line 584), so `ts ≤ tc` on a monotone clock.  The record is
mutated under the lock and the store write happens after release; the
broadcast does not change server state. -/
def send_job_update (ts tc : Int) (job_id : String) (status : Int)
    (fields : FieldDict) (log_line : Option String) (s : Srv) : Srv :=
  let rec0 := (rGet s.records job_id).getD (newRecord job_id tc)
  let rec6 := updateRecord ts status fields log_line rec0
  let st1 := upsert_job s.store rec6
  { s with records := rSet s.records job_id rec6
           store := (match log_line with
             | some l => append_log st1 job_id ts l
             | none => st1) }

/-- The field filter of the broadcast `job_update` message (server.py
lines 622-625). -/
def msgFields (fields : FieldDict) : FieldDict :=
  ["multipv", "depth", "seldepth", "score_cp", "score_mate", "nodes",
   "nps", "bestmove", "pv"].foldl (fun m k =>
    match dGet fields k with
    | some v => pySet m k v
    | none => m) []

/-- The loop body of `ClusterServer._try_start_next` (server.py lines
671-684), with fuel (each iteration pops one pending job, so
`pending.length` fuel is enough). -/
def tsnAux : Nat → Srv → Srv
  | 0, s => s
  | fuel + 1, s =>
    if s.maxJobs > 0 ∧ (s.active.length : Int) ≥ s.maxJobs then s
    else
      match s.pending with
      | [] => s
      | job :: rest =>
        tsnAux fuel { s with pending := rest
                             active := (s.active ++
                               [⟨job.job_id, Phase.spawned, false⟩]) }

/-- `ClusterServer._try_start_next`: start queued jobs while there are
free slots (the `server_status` broadcasts do not change state). -/
def try_start_next (s : Srv) : Srv := tsnAux s.pending.length s

/-- `ClusterServer.submit_job` (server.py lines 699-747): no-op when the
id is already known (record set, active, or pending); otherwise create
the PENDING record; queue it and emit the QUEUED update when max_jobs is
exceeded, else place a runner in `active` (its task emits RUNNING
later); persist the record plus a `"submitted"` log line; when queued,
finish with `_try_start_next`.  `t1` is the clock at record creation,
`t2` the clock read of the QUEUED update and the store log line. -/
def submit_job (t1 t2 : Int) (job : PendingJob) (s : Srv) : Srv :=
  if (rGet s.records job.job_id).isSome then s
  else if s.active.any (fun r => r.jobId == job.job_id) ||
      s.pending.any (fun j => j.job_id == job.job_id) then s
  else
    let rec1 := submitRecord job t1
    let s1 : Srv := { s with records := rSet s.records job.job_id rec1 }
    if s1.maxJobs > 0 ∧ (s1.active.length : Int) ≥ s1.maxJobs then
      let s2 : Srv := { s1 with pending := s1.pending ++ [job] }
      let s3 := send_job_update t2 t2 job.job_id JOB_QUEUED []
        (some "queued") s2
      let s4 : Srv := { s3 with store := (append_log (upsert_job s3.store
        ((rGet s3.records job.job_id).getD rec1)) job.job_id t2
        "submitted") }
      try_start_next s4
    else
      let s2 : Srv := { s1 with active := (s1.active ++
        [⟨job.job_id, Phase.spawned, false⟩]) }
      { s2 with store := (append_log (upsert_job s2.store rec1)
        job.job_id t2 "submitted") }

/-- `ClusterServer.cancel_job` (server.py lines 749-766): request cancel
on an active runner; else remove the first matching pending entry, emit
the CANCELLED update with log line `"cancelled (queued)"` and try to
start the next job; else no-op. -/
def cancel_job (ts : Int) (job_id : String) (s : Srv) : Srv :=
  if s.active.any (fun r => r.jobId == job_id) then
    { s with active := (s.active.map (fun r =>
        if r.jobId == job_id then { r with cancelled := true } else r)) }
  else if s.pending.any (fun j => j.job_id == job_id) then
    let s1 : Srv := { s with pending := (s.pending.eraseP
      (fun j => j.job_id == job_id)) }
    let s2 := send_job_update ts ts job_id JOB_CANCELLED []
      (some "cancelled (queued)") s1
    try_start_next s2
  else s

/-- The start of `_run_job` (server.py line 688): the driver task of a
spawned runner emits the RUNNING update with log line `"started"`. -/
def runner_started (ts : Int) (id : String) (s : Srv) : Srv :=
  if s.active.any (fun r => r.jobId == id && r.phase == Phase.spawned) then
    let s1 : Srv := { s with active := (s.active.map (fun r =>
      if r.jobId == id then { r with phase := Phase.running } else r)) }
    send_job_update ts ts id JOB_RUNNING [] (some "started") s1
  else s

/-- An `info`-line update from a running driver (server.py lines
403-405). -/
def runner_info (ts : Int) (id : String) (fields : FieldDict)
    (log_line : Option String) (s : Srv) : Srv :=
  if s.active.any (fun r => r.jobId == id && r.phase == Phase.running) then
    send_job_update ts ts id JOB_RUNNING fields log_line s
  else s

/-- The single terminal update of a running driver: FINISHED or
CANCELLED from the bestmove branch (lines 406-418), or ERROR from the
except path (lines 420-424). -/
def runner_terminal (ts : Int) (id : String) (status : Int)
    (fields : FieldDict) (log_line : Option String) (s : Srv) : Srv :=
  if (status = JOB_FINISHED ∨ status = JOB_ERROR ∨ status = JOB_CANCELLED)
      ∧ s.active.any (fun r => r.jobId == id && r.phase == Phase.running)
    then
    let s1 : Srv := { s with active := (s.active.map (fun r =>
      if r.jobId == id then { r with phase := Phase.done } else r)) }
    send_job_update ts ts id status fields log_line s1
  else s

/-- The `finally` of `_run_job` (server.py lines 691-695): remove the
finished runner from `active` and try to start the next queued job. -/
def runner_exit (id : String) (s : Srv) : Srv :=
  if s.active.any (fun r => r.jobId == id && r.phase == Phase.done) then
    try_start_next { s with active := (s.active.filter
      (fun r => !(r.jobId == id))) }
  else s

/-- One scheduler-visible event with its clock reads. -/
inductive SrvOp where
  | submit (t1 t2 : Int) (job : PendingJob)
  | cancel (ts : Int) (id : String)
  | started (ts : Int) (id : String)
  | info (ts : Int) (id : String) (fields : FieldDict)
      (log_line : Option String)
  | terminal (ts : Int) (id : String) (status : Int) (fields : FieldDict)
      (log_line : Option String)
  | exit (id : String)
deriving DecidableEq, Repr

/-- Clock-read sanity of an event: reads happen at or after the state's
last read, in program order. -/
def opOk (s : Srv) : SrvOp → Prop
  | SrvOp.submit t1 t2 _ => s.clock ≤ t1 ∧ t1 ≤ t2
  | SrvOp.cancel ts _ => s.clock ≤ ts
  | SrvOp.started ts _ => s.clock ≤ ts
  | SrvOp.info ts _ _ _ => s.clock ≤ ts
  | SrvOp.terminal ts _ _ _ _ => s.clock ≤ ts
  | SrvOp.exit _ => True

/-- Apply an event and advance the ghost clock to its last read. -/
def applyOp (op : SrvOp) (s : Srv) : Srv :=
  match op with
  | SrvOp.submit t1 t2 job => { submit_job t1 t2 job s with clock := t2 }
  | SrvOp.cancel ts id => { cancel_job ts id s with clock := ts }
  | SrvOp.started ts id => { runner_started ts id s with clock := ts }
  | SrvOp.info ts id fields ll =>
    { runner_info ts id fields ll s with clock := ts }
  | SrvOp.terminal ts id status fields ll =>
    { runner_terminal ts id status fields ll s with clock := ts }
  | SrvOp.exit id => runner_exit id s

/-- One step of the server: some event with sane clock reads. -/
def Step (s s' : Srv) : Prop := ∃ op, opOk s op ∧ s' = applyOp op s

/-- Reachability from a state by server steps. -/
def Reach (s s' : Srv) : Prop := Relation.ReflTransGen Step s s'

/-- The transition relation the status histories actually follow
(amended machine): PENDING to QUEUED or RUNNING or CANCELLED, QUEUED to
RUNNING or CANCELLED, RUNNING to any terminal. -/
def amendedEdge (a b : Int) : Bool :=
  (a == JOB_PENDING &&
    (b == JOB_QUEUED || b == JOB_RUNNING || b == JOB_CANCELLED)) ||
  (a == JOB_QUEUED && (b == JOB_RUNNING || b == JOB_CANCELLED)) ||
  (a == JOB_RUNNING && (b == JOB_FINISHED || b == JOB_ERROR ||
    b == JOB_CANCELLED || b == JOB_STOPPED))

/-- The transition relation of the spec's section 4.5 diagram as the
claim words it: PENDING to QUEUED, QUEUED to RUNNING, RUNNING to a
terminal, plus PENDING to CANCELLED. -/
def specEdge (a b : Int) : Bool :=
  (a == JOB_PENDING && (b == JOB_QUEUED || b == JOB_CANCELLED)) ||
  (a == JOB_QUEUED && b == JOB_RUNNING) ||
  (a == JOB_RUNNING && (b == JOB_FINISHED || b == JOB_ERROR ||
    b == JOB_CANCELLED || b == JOB_STOPPED))

/-- A status history follows `edge`: consecutive values are equal (a
re-emission of the same status) or an edge; since no edge leaves a
terminal status, at most one transition enters a terminal status and
nothing follows it but re-emission. -/
def chainFrom (edge : Int → Int → Bool) (a : Int) : List Int → Bool
  | [] => true
  | b :: rest => (a == b || edge a b) && chainFrom edge b rest

/-- A record's status history is a path: it starts at PENDING and every
consecutive pair is a self-repeat or an edge. -/
def pathFrom (edge : Int → Int → Bool) : List Int → Bool
  | [] => false
  | h :: rest => h == JOB_PENDING && chainFrom edge h rest

/-- A second pending job used in concrete traces. -/
def jobW2 : PendingJob := ⟨"j2", "", "FEN2", 0, 4, 1⟩

/-- A concrete reachable trace: submit `j1` (free slot, runner spawned),
its driver starts (PENDING to RUNNING), submit `j2` (queued), cancel
`j2` (QUEUED to CANCELLED). -/
def cexTrace : Srv :=
  applyOp (SrvOp.cancel 4 "j2")
    (applyOp (SrvOp.submit 3 3 jobW2)
      (applyOp (SrvOp.started 2 "j1")
        (applyOp (SrvOp.submit 1 1 jobW) (initSrv 1))))

/-- Well-formedness of the server maps: every job id found in the
`active` map or the `pending` queue owns an entry of `job_records`
(submission creates the record before queueing or spawning, and records
are never deleted). -/
def IdsInv (s : Srv) : Prop :=
  (∀ r ∈ s.active, (rGet s.records r.jobId).isSome = true) ∧
  (∀ p ∈ s.pending, (rGet s.records p.job_id).isSome = true)

/-- All records' timestamps are bounded by a clock value. -/
def recsLE (rs : List (String × JobRecord)) (t : Int) : Prop :=
  ∀ p ∈ rs, p.2.last_update_ms ≤ t ∧ p.2.created_at_ms ≤ t

/-- Clock sanity of a server state: every record's `last_update_ms` and
`created_at_ms` were read no later than the ghost clock. -/
def ClockInv (s : Srv) : Prop := recsLE s.records s.clock

/-- Last element of a status history, with a default for the empty
list. -/
def lastSt (l : List Int) (d : Int) : Int :=
  match l with
  | [] => d
  | x :: rest => lastSt rest x

/-- The status-machine invariant: every record's history is a path of
the amended machine ending at its current status; every active runner's
phase agrees with its record's status (spawned before the RUNNING
update, running at RUNNING, done after the terminal update); every
pending job's record is QUEUED; pending ids meet no active id; active
and pending ids are pairwise distinct. -/
def C2Inv (s : Srv) : Prop :=
  (∀ id r, rGet s.records id = some r →
    pathFrom amendedEdge r.hist = true ∧ lastSt r.hist 0 = r.status) ∧
  (∀ rn ∈ s.active, ∀ r, rGet s.records rn.jobId = some r →
    (rn.phase = Phase.spawned →
      r.status = JOB_PENDING ∨ r.status = JOB_QUEUED) ∧
    (rn.phase = Phase.running → r.status = JOB_RUNNING)) ∧
  (∀ p ∈ s.pending, ∀ r, rGet s.records p.job_id = some r →
    r.status = JOB_QUEUED) ∧
  (∀ p ∈ s.pending, ∀ rn ∈ s.active, p.job_id ≠ rn.jobId) ∧
  List.Pairwise (fun a b => a.jobId ≠ b.jobId) s.active ∧
  List.Pairwise (fun a b => a.job_id ≠ b.job_id) s.pending

deriving instance DecidableEq for Except

/-! Basic facts about the decimal digit helpers, leading to the round trip
`pyInt? (pyStrOfInt k) = some k` that underlies the multipv key duality
(`_record_to_dict` tolerating string keys restored from JSON). -/

theorem digitChar_facts : ∀ d < 10, digitVal (digitChar d) = some d ∧
    (digitChar d).isWhitespace = false ∧ digitChar d ≠ '_' ∧
    digitChar d ≠ '-' ∧ digitChar d ≠ '+' := by decide

theorem natDigitsF_congr : ∀ f g n, n < f → n < g →
    natDigitsF f n = natDigitsF g n := by
  intro f
  induction f with
  | zero => intro g n h; omega
  | succ f ih =>
    intro g n hf hg
    match g with
    | 0 => omega
    | g + 1 =>
      simp only [natDigitsF]
      by_cases h10 : n < 10
      · simp [h10]
      · simp only [if_neg h10]
        rw [ih g (n / 10) (by omega) (by omega)]

theorem natDigits_unfold (n : Nat) : natDigits n =
    if n < 10 then [digitChar n]
    else natDigits (n / 10) ++ [digitChar (n % 10)] := by
  show natDigitsF (n + 1) n = _
  by_cases h10 : n < 10
  · simp [natDigitsF, h10]
  · simp only [natDigitsF, if_neg h10]
    rw [natDigitsF_congr n (n / 10 + 1) (n / 10) (by omega) (by omega)]
    rfl

/-- Every natural number's digit list is a non-empty list of digit
characters. -/
theorem natDigits_shape (n : Nat) : ∃ ds : List Nat,
    (∀ d ∈ ds, d < 10) ∧ natDigits n = ds.map digitChar ∧ ds ≠ [] := by
  induction n using Nat.strong_induction_on with
  | _ n ih =>
    rw [natDigits_unfold]
    by_cases h10 : n < 10
    · exact ⟨[n], by simpa using h10, by simp [h10], by simp⟩
    · obtain ⟨ds, hlt, heq, _⟩ := ih (n / 10) (Nat.div_lt_self (by omega) (by omega))
      refine ⟨ds ++ [n % 10], ?_, ?_, by simp⟩
      · intro d hd
        rcases List.mem_append.mp hd with h | h
        · exact hlt d h
        · simp at h; omega
      · simp [h10, heq]

theorem parseDigitsCore_cons_digit (acc : Nat) (c : Char) (rest : List Char)
    (d : Nat) (hne : c ≠ '_') (hv : digitVal c = some d) :
    parseDigitsCore acc (c :: rest) = parseDigitsCore (acc * 10 + d) rest := by
  rw [parseDigitsCore.eq_def]
  simp only [if_neg hne, hv]

theorem parseDigitsCore_digits : ∀ ds : List Nat, (∀ d ∈ ds, d < 10) →
    ∀ acc suffix, parseDigitsCore acc (ds.map digitChar ++ suffix) =
      parseDigitsCore (digitsFold acc (ds.map digitChar)) suffix := by
  intro ds
  induction ds with
  | nil => intro _ acc suffix; simp [digitsFold]
  | cons d ds ih =>
    intro hlt acc suffix
    have hd := digitChar_facts d (hlt d (by simp))
    simp only [List.map_cons, List.cons_append]
    rw [parseDigitsCore_cons_digit acc _ _ d hd.2.2.1 hd.1]
    rw [ih (fun x hx => hlt x (by simp [hx])) (acc * 10 + d)]
    simp [digitsFold, hd.1]

theorem digitsFold_natDigits (n : Nat) : ∀ acc,
    digitsFold acc (natDigits n) = acc * 10 ^ (natDigits n).length + n := by
  induction n using Nat.strong_induction_on with
  | _ n ih =>
    intro acc
    rw [natDigits_unfold]
    by_cases h10 : n < 10
    · have hd := digitChar_facts n h10
      simp [h10, digitsFold, hd.1]
    · have hdiv := Nat.div_lt_self (show 0 < n by omega) (show 1 < 10 by omega)
      have hd := digitChar_facts (n % 10) (by omega)
      simp only [if_neg h10, digitsFold, List.foldl_append, List.foldl_cons,
        List.foldl_nil]
      have := ih (n / 10) hdiv acc
      simp only [digitsFold] at this
      rw [this, hd.1]
      simp only [List.length_append, List.length_cons, List.length_nil]
      have : acc * 10 ^ ((natDigits (n / 10)).length + (0 + 1)) =
          acc * 10 ^ (natDigits (n / 10)).length * 10 := by ring
      rw [this]
      have h2 : (Option.some (n % 10)).getD 0 = n % 10 := rfl
      rw [h2]
      omega

theorem parseDigitsUS_natDigits (n : Nat) :
    parseDigitsUS (natDigits n) = some n := by
  obtain ⟨ds, hlt, heq, hne⟩ := natDigits_shape n
  match hds : ds with
  | [] => exact absurd rfl hne
  | d :: ds' =>
    subst hds
    have hd := digitChar_facts d (hlt d (by simp))
    rw [heq]
    simp only [parseDigitsUS, List.map_cons, if_neg hd.2.2.1]
    have := parseDigitsCore_digits (d :: ds') hlt 0 []
    simp only [List.append_nil, List.map_cons] at this
    rw [this]
    simp only [parseDigitsCore]
    have h2 := digitsFold_natDigits n 0
    rw [heq] at h2
    simp only [List.map_cons] at h2
    rw [h2]
    simp

theorem stripWS_eq_self (l : List Char) (h : ∀ c ∈ l, c.isWhitespace = false) :
    stripWS l = l := by
  have h1 : l.dropWhile Char.isWhitespace = l := by
    cases l with
    | nil => rfl
    | cons c rest => simp [List.dropWhile, h c (by simp)]
  have h2 : l.reverse.dropWhile Char.isWhitespace = l.reverse := by
    cases hr : l.reverse with
    | nil => rfl
    | cons c rest =>
      have : c ∈ l := by
        have : c ∈ l.reverse := by rw [hr]; simp
        simpa using this
      simp [List.dropWhile, h c this]
  simp [stripWS, h1, h2]

theorem pyInt_pyStrOfNat (n : Nat) : pyInt? (pyStrOfNat n) = some (n : Int) := by
  obtain ⟨ds, hlt, heq, hne⟩ := natDigits_shape n
  have hall : ∀ c ∈ natDigits n, c.isWhitespace = false := by
    intro c hc
    rw [heq] at hc
    obtain ⟨d, hd, rfl⟩ := List.mem_map.mp hc
    exact (digitChar_facts d (hlt d hd)).2.1
  have hdata : (pyStrOfNat n).data = natDigits n := rfl
  rw [pyInt?.eq_def, hdata, stripWS_eq_self _ hall]
  match hds : ds with
  | [] => exact absurd rfl hne
  | d :: ds' =>
    subst hds
    have hd := digitChar_facts d (hlt d (by simp))
    have hminus : digitChar d ≠ '-' := hd.2.2.2.1
    have hplus : digitChar d ≠ '+' := hd.2.2.2.2
    have hparse := parseDigitsUS_natDigits n
    rw [heq]
    simp only [List.map_cons]
    rw [heq] at hparse
    simp only [List.map_cons] at hparse
    split
    · next heq2 =>
      exact absurd (List.head_eq_of_cons_eq heq2) hminus
    · next heq2 =>
      exact absurd (List.head_eq_of_cons_eq heq2) hplus
    · rw [hparse]; rfl

theorem pyInt_pyStrOfInt (k : Int) : pyInt? (pyStrOfInt k) = some k := by
  match k with
  | Int.ofNat n => exact pyInt_pyStrOfNat n
  | Int.negSucc n =>
    have hdata : (pyStrOfInt (Int.negSucc n)).data = '-' :: natDigits (n + 1) := by
      show (String.mk ('-' :: (natDigits (n + 1)))).data = _
      rfl
    obtain ⟨ds, hlt, heq, hne⟩ := natDigits_shape (n + 1)
    have hall : ∀ c ∈ '-' :: natDigits (n + 1), c.isWhitespace = false := by
      intro c hc
      rcases List.mem_cons.mp hc with rfl | hc
      · decide
      · rw [heq] at hc
        obtain ⟨d, hd, rfl⟩ := List.mem_map.mp hc
        exact (digitChar_facts d (hlt d hd)).2.1
    rw [pyInt?.eq_def, hdata, stripWS_eq_self _ hall]
    simp only [parseDigitsUS_natDigits]
    simp [Int.negSucc_eq]

theorem pyStrOfInt_inj {a b : Int} (h : pyStrOfInt a = pyStrOfInt b) : a = b := by
  have := pyInt_pyStrOfInt a
  rw [h, pyInt_pyStrOfInt b] at this
  exact (Option.some_inj.mp this).symm

/-! Properties of the `parse_info_line` scanner (claim C9). -/

theorem scanInfo_skip (tok : String) (rest : List String) (out : FieldDict)
    (h : tok ∉ infoKeywords) : scanInfo (tok :: rest) out = scanInfo rest out := by
  have h1 : ¬ tok = "depth" := fun e => h (by simp [infoKeywords, e])
  have h2 : ¬ tok = "seldepth" := fun e => h (by simp [infoKeywords, e])
  have h3 : ¬ tok = "score" := fun e => h (by simp [infoKeywords, e])
  have h4 : ¬ tok = "nodes" := fun e => h (by simp [infoKeywords, e])
  have h5 : ¬ tok = "nps" := fun e => h (by simp [infoKeywords, e])
  have h6 : ¬ tok = "multipv" := fun e => h (by simp [infoKeywords, e])
  have h7 : ¬ tok = "pv" := fun e => h (by simp [infoKeywords, e])
  match rest with
  | [] => rfl
  | v :: rest2 =>
    rw [scanInfo.eq_def]
    simp only [if_neg h1, if_neg h2, if_neg h3, if_neg h4, if_neg h5,
      if_neg h6, if_neg h7]

theorem scanInfo_no_keyword (toks : List String)
    (h : ∀ t ∈ toks, t ∉ infoKeywords) :
    ∀ out, scanInfo toks out = Except.ok out := by
  induction toks with
  | nil => intro out; rfl
  | cons t rest ih =>
    intro out
    rw [scanInfo_skip t rest out (h t (by simp))]
    exact ih (fun x hx => h x (by simp [hx])) out

theorem isOk_ok (a : FieldDict) :
    (Except.ok a : Except String FieldDict).isOk = true := rfl

theorem isOk_error (m : String) :
    (Except.error m : Except String FieldDict).isOk = false := rfl

theorem scanInfo_isOk_aux : ∀ n (toks : List String) (out : FieldDict),
    toks.length ≤ n → (scanInfo toks out).isOk = goodInfo toks := by
  intro n
  induction n with
  | zero =>
    intro toks out h
    match toks with
    | [] => rfl
  | succ n ih =>
    intro toks out h
    match toks with
    | [] => rfl
    | [t] => rfl
    | tok :: v :: rest2 =>
      have hlen : rest2.length ≤ n := by simp at h; omega
      rw [scanInfo.eq_def, goodInfo.eq_def]
      by_cases h1 : tok = "depth"
      · simp only [h1, if_pos]
        cases hv : (pyInt? v).isSome <;>
          simp [hv, ih rest2 _ hlen, isOk_ok, isOk_error]
      · by_cases h2 : tok = "seldepth"
        · simp only [h1, h2, if_neg, if_pos]
          cases hv : (pyInt? v).isSome <;>
            simp [hv, ih rest2 _ hlen, isOk_ok, isOk_error]
        · by_cases h3 : tok = "score"
          · simp only [h1, h2, h3, if_neg, if_pos, if_false]
            match rest2 with
            | [] => simp [h1, h2, h3, isOk_ok, isOk_error]
            | sval :: rest3 =>
              have hlen3 : rest3.length ≤ n := by simp at hlen; omega
              by_cases hcp : v = "cp"
              · simp only [hcp, if_pos, h1, h2, h3, if_false, if_true]
                cases hv : (pyInt? sval).isSome <;>
                  simp [h1, h2, h3, hv, ih rest3 _ hlen3, isOk_ok, isOk_error]
              · by_cases hmate : v = "mate"
                · simp only [hcp, hmate, h1, h2, h3]
                  cases hv : (pyInt? sval).isSome <;>
                    simp [h1, h2, h3, hcp, hv, ih rest3 _ hlen3, isOk_ok, isOk_error]
                · simp [h1, h2, h3, hcp, hmate, ih rest3 _ hlen3, isOk_ok, isOk_error]
          · by_cases h4 : tok = "nodes"
            · simp only [h1, h2, h3, h4]
              cases hv : (pyInt? v).isSome <;>
                simp [h1, h2, h3, hv, ih rest2 _ hlen, isOk_ok, isOk_error]
            · by_cases h5 : tok = "nps"
              · simp only [h1, h2, h3, h4, h5]
                cases hv : (pyInt? v).isSome <;>
                  simp [h1, h2, h3, h4, hv, ih rest2 _ hlen, isOk_ok, isOk_error]
              · by_cases h6 : tok = "multipv"
                · simp only [h1, h2, h3, h4, h5, h6]
                  cases hv : (pyInt? v).isSome <;>
                    simp [h1, h2, h3, h4, h5, hv, ih rest2 _ hlen,
                      isOk_ok, isOk_error]
                · by_cases h7 : tok = "pv"
                  · simp [h1, h2, h3, h4, h5, h6, h7, isOk_ok, isOk_error]
                  · have : (scanInfo (v :: rest2) out).isOk =
                        goodInfo (v :: rest2) := by
                      exact ih (v :: rest2) out (by simp at h ⊢; omega)
                    simp [h1, h2, h3, h4, h5, h6, h7, this, isOk_ok, isOk_error]

theorem scanInfo_isOk (toks : List String) (out : FieldDict) :
    (scanInfo toks out).isOk = goodInfo toks :=
  scanInfo_isOk_aux toks.length toks out (Nat.le_refl _)

/-! Driver error semantics (claim C4): the streaming loop and the whole
`run()` emit only RUNNING updates before either the single bestmove
terminal or the single `except`-path ERROR terminal. -/

theorem countStop_append (xs ys : List String) :
    countStop (xs ++ ys) = countStop xs + countStop ys := by
  simp [countStop, List.filter_append]

theorem countTerminalUpd_running_append (pre : List Upd) (u : Upd)
    (hpre : ∀ x ∈ pre, x.status = JOB_RUNNING)
    (hu : isTerminal u.status = true) :
    countTerminalUpd (pre ++ [u]) = 1 := by
  have hnil : pre.filter (fun x => isTerminal x.status) = [] := by
    rw [List.filter_eq_nil_iff]
    intro a ha
    rw [hpre a ha]
    decide
  simp [countTerminalUpd, List.filter_append, hnil, hu]

theorem streamLoop_nil_err (w : EngineWorld) (jobId : String) (iter : Nat)
    (st0 : DrvSt) (s2 : List String) (msg : String)
    (hstop : stopCheck w iter st0.sent = Except.error (s2, msg)) :
    streamLoop w jobId [] iter st0 = errorResult jobId st0 msg := by
  rw [streamLoop, hstop]

theorem streamLoop_nil_ok (w : EngineWorld) (jobId : String) (iter : Nat)
    (st0 : DrvSt) (sent1 : List String)
    (hstop : stopCheck w iter st0.sent = Except.ok sent1) :
    streamLoop w jobId [] iter st0 =
      errorResult jobId { st0 with sent := sent1 }
        "Engine terminated unexpectedly" := by
  rw [streamLoop, hstop]

theorem streamLoop_cons_err (w : EngineWorld) (jobId : String)
    (line : String) (rest : List String) (iter : Nat) (st0 : DrvSt)
    (s2 : List String) (msg : String)
    (hstop : stopCheck w iter st0.sent = Except.error (s2, msg)) :
    streamLoop w jobId (line :: rest) iter st0 = errorResult jobId st0 msg := by
  rw [streamLoop, hstop]

theorem streamLoop_cons_ok (w : EngineWorld) (jobId : String)
    (line : String) (rest : List String) (iter : Nat) (st0 : DrvSt)
    (sent1 : List String)
    (hstop : stopCheck w iter st0.sent = Except.ok sent1) :
    streamLoop w jobId (line :: rest) iter st0 =
    (let st : DrvSt := { st0 with sent := sent1 }
     let s := pyStrip line
     if s = "" then streamLoop w jobId rest (iter + 1) st
     else if pyStartsWith s "info" then
       match parse_info_line s with
       | Except.error msg => errorResult jobId st msg
       | Except.ok parsed =>
         let mpv := jvToInt ((dGet parsed "multipv").getD (JsonVal.i 1))
         let cur := pySet (pyUpdate ((iGet st.lastByMpv mpv).getD [])
           parsed) "multipv" (JsonVal.i mpv)
         streamLoop w jobId rest (iter + 1)
           { st with lastByMpv := iSet st.lastByMpv mpv cur
                     updates := st.updates ++
                       [⟨JOB_RUNNING, cur, some s⟩] }
     else if pyStartsWith s "bestmove" then
       let bm := parse_bestmove_line s
       let finalStatus := if cancelOn w iter then JOB_CANCELLED
         else JOB_FINISHED
       let fields := pySet (pyUpdate ((iGet st.lastByMpv 1).getD []) bm)
         "multipv" (JsonVal.i 1)
       { status := finalStatus
         fields := fields
         updates := st.updates ++ [⟨finalStatus, fields, some s⟩]
         sent := st.sent
         errMsg := none
         bmLine := some s }
     else streamLoop w jobId rest (iter + 1) st) := by
  rw [streamLoop, hstop]

theorem streamLoop_err (w : EngineWorld) (jobId : String) :
    ∀ (lines : List String) (iter : Nat) (st : DrvSt) (msg : String),
    (∀ u ∈ st.updates, u.status = JOB_RUNNING) →
    (streamLoop w jobId lines iter st).errMsg = some msg →
    (streamLoop w jobId lines iter st).status = JOB_ERROR ∧
    (streamLoop w jobId lines iter st).fields = [] ∧
    ∃ pre, (streamLoop w jobId lines iter st).updates =
        pre ++ [⟨JOB_ERROR, [],
          some ("[job " ++ jobId ++ "] Error: " ++ msg)⟩] ∧
      ∀ u ∈ pre, u.status = JOB_RUNNING := by
  intro lines
  induction lines with
  | nil =>
    intro iter st msg hinv herr
    cases hstop : stopCheck w iter st.sent with
    | error e =>
      obtain ⟨s2, msg2⟩ := e
      rw [streamLoop_nil_err w jobId iter st s2 msg2 hstop] at herr ⊢
      obtain rfl : msg2 = msg := by simpa [errorResult] using herr
      exact ⟨rfl, rfl, st.updates, rfl, hinv⟩
    | ok sent1 =>
      rw [streamLoop_nil_ok w jobId iter st sent1 hstop] at herr ⊢
      obtain rfl : "Engine terminated unexpectedly" = msg := by
        simpa [errorResult] using herr
      exact ⟨rfl, rfl, st.updates, rfl, hinv⟩
  | cons line rest ih =>
    intro iter st msg hinv herr
    cases hstop : stopCheck w iter st.sent with
    | error e =>
      obtain ⟨s2, msg2⟩ := e
      rw [streamLoop_cons_err w jobId line rest iter st s2 msg2 hstop] at herr ⊢
      obtain rfl : msg2 = msg := by simpa [errorResult] using herr
      exact ⟨rfl, rfl, st.updates, rfl, hinv⟩
    | ok sent1 =>
      rw [streamLoop_cons_ok w jobId line rest iter st sent1 hstop] at herr ⊢
      by_cases hempty : pyStrip line = ""
      · simp only [if_pos hempty] at herr ⊢
        exact ih _ _ msg hinv herr
      · simp only [if_neg hempty] at herr ⊢
        by_cases hinfo : pyStartsWith (pyStrip line) "info"
        · simp only [if_pos hinfo] at herr ⊢
          cases hp : parse_info_line (pyStrip line) with
          | error m2 =>
            rw [hp] at herr
            obtain rfl : m2 = msg := by simpa [errorResult] using herr
            exact ⟨rfl, rfl, st.updates, rfl, hinv⟩
          | ok parsed =>
            rw [hp] at herr
            refine ih _ _ msg ?_ herr
            intro u hu
            rcases List.mem_append.mp hu with h | h
            · exact hinv u h
            · simp at h
              rw [h]
        · simp only [if_neg hinfo] at herr ⊢
          by_cases hbm : pyStartsWith (pyStrip line) "bestmove"
          · simp only [if_pos hbm] at herr ⊢
            simp at herr
          · simp only [if_neg hbm] at herr ⊢
            exact ih _ _ msg hinv herr

/-- C4: if any failure occurs during the driver's protocol script (spawn
failure, EOF before `uciok` or `readyok`, EOF before `bestmove`, write
failure, or a parse raise), `run()` emits exactly one terminal
`job_update` — status ERROR, empty fields, log line exactly
`[job <id>] Error: <message>` — every earlier update of that run is
RUNNING, and it returns `(JOB_ERROR, {})`. -/
theorem claim_C4_error_path (w : EngineWorld) (threads : Int)
    (job : PendingJob) (msg : String)
    (h : (runDriver w threads job).errMsg = some msg) :
    (runDriver w threads job).status = JOB_ERROR ∧
    (runDriver w threads job).fields = [] ∧
    countTerminalUpd (runDriver w threads job).updates = 1 ∧
    ∃ pre, (runDriver w threads job).updates =
        pre ++ [⟨JOB_ERROR, [],
          some ("[job " ++ job.job_id ++ "] Error: " ++ msg)⟩] ∧
      ∀ u ∈ pre, u.status = JOB_RUNNING := by
  have key : (runDriver w threads job).status = JOB_ERROR ∧
      (runDriver w threads job).fields = [] ∧
      ∃ pre, (runDriver w threads job).updates =
          pre ++ [⟨JOB_ERROR, [],
            some ("[job " ++ job.job_id ++ "] Error: " ++ msg)⟩] ∧
        ∀ u ∈ pre, u.status = JOB_RUNNING := by
    rw [runDriver.eq_def] at h ⊢
    cases hspawn : w.spawnErr with
    | some m =>
      rw [hspawn] at h
      obtain rfl : m = msg := by simpa [errorResult] using h
      exact ⟨rfl, rfl, [], rfl, by simp⟩
    | none =>
      rw [hspawn] at h
      cases hinit : initPhase w threads job with
      | error e =>
        obtain ⟨sent, m⟩ := e
        rw [hinit] at h
        obtain rfl : m = msg := by simpa [errorResult] using h
        exact ⟨rfl, rfl, [], rfl, by simp⟩
      | ok p =>
        obtain ⟨sent, lines⟩ := p
        rw [hinit] at h
        exact streamLoop_err w job.job_id lines 0 ⟨sent, [], []⟩ msg
          (by simp) h
  obtain ⟨h1, h2, pre, hupd, hpre⟩ := key
  refine ⟨h1, h2, ?_, pre, hupd, hpre⟩
  rw [hupd]
  exact countTerminalUpd_running_append pre _ hpre rfl

/-- Witness for C4: a concrete spawn failure. -/
theorem claim_C4_witness :
    (runDriver ⟨some "boom", none, [], none⟩ 1 jobW).errMsg = some "boom" ∧
    ((runDriver ⟨some "boom", none, [], none⟩ 1 jobW).status = JOB_ERROR ∧
     (runDriver ⟨some "boom", none, [], none⟩ 1 jobW).fields = [] ∧
     countTerminalUpd (runDriver ⟨some "boom", none, [], none⟩ 1 jobW).updates
        = 1 ∧
     ∃ pre, (runDriver ⟨some "boom", none, [], none⟩ 1 jobW).updates =
        pre ++ [⟨JOB_ERROR, [],
          some ("[job " ++ jobW.job_id ++ "] Error: " ++ "boom")⟩] ∧
       ∀ u ∈ pre, u.status = JOB_RUNNING) :=
  ⟨by decide, claim_C4_error_path ⟨some "boom", none, [], none⟩ 1 jobW "boom"
    (by decide)⟩

/-! Stop-command counting (claim C5). -/

theorem initPhase_cancelWorld (n : Nat) :
    initPhase (cancelWorld n) 0 jobW = Except.ok
      (["uci", "setoption name MultiPV value 1", "isready", "ucinewgame",
        "position fen FEN0", "go depth 4"],
       List.replicate n "info depth 1 pv e2e4" ++ ["bestmove e2e4"]) := rfl

theorem streamLoop_count_aux (w : EngineWorld) (hq : w.cancelAt = some 0)
    (hw : w.writeErrAt = none) (jobId : String) :
    ∀ (k : Nat) (iter : Nat) (st : DrvSt),
    countStop (streamLoop w jobId
      (List.replicate k "info depth 1 pv e2e4" ++ ["bestmove e2e4"])
      iter st).sent = countStop st.sent + (k + 1) := by
  have hbm1 : pyStrip "bestmove e2e4" = "bestmove e2e4" := by decide
  have hbm2 : ("bestmove e2e4" : String) ≠ "" := by decide
  have hbm3 : pyStartsWith "bestmove e2e4" "info" = false := by decide
  have hbm4 : pyStartsWith "bestmove e2e4" "bestmove" = true := by decide
  have hif1 : pyStrip "info depth 1 pv e2e4" = "info depth 1 pv e2e4" := by
    decide
  have hif2 : ("info depth 1 pv e2e4" : String) ≠ "" := by decide
  have hif3 : pyStartsWith "info depth 1 pv e2e4" "info" = true := by decide
  have hif4 : parse_info_line "info depth 1 pv e2e4" =
      Except.ok [("depth", JsonVal.i 1), ("pv", JsonVal.s "e2e4")] := by decide
  intro k
  induction k with
  | zero =>
    intro iter st
    have hstop : stopCheck w iter st.sent = Except.ok (st.sent ++ ["stop"]) := by
      simp [stopCheck, cancelOn, hq, sendCmdS, hw]
    rw [List.replicate_zero, List.nil_append,
      streamLoop_cons_ok w jobId _ _ iter st _ hstop]
    simp only [hbm1, if_neg hbm2, hbm3, hbm4, if_pos, Bool.false_eq_true,
      if_false, if_true]
    rw [countStop_append]
    simp [countStop]
  | succ k ih =>
    intro iter st
    have hstop : stopCheck w iter st.sent = Except.ok (st.sent ++ ["stop"]) := by
      simp [stopCheck, cancelOn, hq, sendCmdS, hw]
    rw [List.replicate_succ, List.cons_append,
      streamLoop_cons_ok w jobId _ _ iter st _ hstop]
    simp only [hif1, if_neg hif2, hif3, if_true, hif4]
    rw [ih]
    rw [countStop_append]
    simp [countStop]
    omega

/-- C5 (amended): once cancel has been requested, the streaming loop
sends `stop` again on every iteration (the code has no sent-once guard):
with cancel requested from the start and `n` info lines read before the
bestmove, `stop` is sent exactly `n + 1` times during the run, one per
loop iteration. -/
theorem claim_C5_stop_resent_each_iteration (n : Nat) :
    countStop (runDriver (cancelWorld n) 0 jobW).sent = n + 1 := by
  have hrun : runDriver (cancelWorld n) 0 jobW =
      streamLoop (cancelWorld n) "j1"
        (List.replicate n "info depth 1 pv e2e4" ++ ["bestmove e2e4"]) 0
        ⟨["uci", "setoption name MultiPV value 1", "isready", "ucinewgame",
          "position fen FEN0", "go depth 4"], [], []⟩ := by
    rw [runDriver.eq_def]
    rw [show (cancelWorld n).spawnErr = none from rfl]
    rw [initPhase_cancelWorld n]
    rfl
  rw [hrun, streamLoop_count_aux (cancelWorld n) rfl rfl "j1" n 0 _]
  show countStop ["uci", "setoption name MultiPV value 1", "isready",
    "ucinewgame", "position fen FEN0", "go depth 4"] + (n + 1) = n + 1
  rw [show countStop ["uci", "setoption name MultiPV value 1", "isready",
    "ucinewgame", "position fen FEN0", "go depth 4"] = 0 from by decide]
  omega

/-- C5 counterexample: with cancel requested before the streaming loop
and one info line before the bestmove, `stop` is sent twice in a single
`run()` — the claim that `stop` is sent at most once is false. -/
theorem claim_C5_cex :
    countStop (runDriver (cancelWorld 1) 0 jobW).sent = 2 ∧
    ¬ countStop (runDriver (cancelWorld 1) 0 jobW).sent ≤ 1 := by
  constructor <;> decide

/-- C9 (amended): `parse_info_line` returns a map without raising exactly
on the lines whose recognised-keyword value tokens are valid Python
integer literals (`goodInfo`); a token that is not one of the recognised
keywords is skipped by advancing one token; and a line none of whose
tokens is a recognised keyword yields the empty map.  (As frozen, the
claim asserts totality on every input; the counterexample shows the
`int()` conversion can raise.) -/
theorem claim_C9_parse_info_amended (line : String) :
    ((parse_info_line line).isOk = goodInfo (pyTokens line)) ∧
    ((∀ t ∈ pyTokens line, t ∉ infoKeywords) →
      parse_info_line line = Except.ok []) ∧
    (∀ tok rest out, tok ∉ infoKeywords →
      scanInfo (tok :: rest) out = scanInfo rest out) :=
  ⟨scanInfo_isOk (pyTokens line) [],
   fun h => scanInfo_no_keyword (pyTokens line) h [],
   fun tok rest out h => scanInfo_skip tok rest out h⟩

/-- Witness for C9 (amended), at a line with no recognised keyword. -/
theorem claim_C9_witness :
    ((parse_info_line "Stockfish dev ready").isOk =
      goodInfo (pyTokens "Stockfish dev ready")) ∧
    parse_info_line "Stockfish dev ready" = Except.ok [] ∧
    scanInfo ("hello" :: ["world"]) [] = scanInfo ["world"] [] :=
  ⟨(claim_C9_parse_info_amended "Stockfish dev ready").1,
   (claim_C9_parse_info_amended "Stockfish dev ready").2.1 (by decide),
   (claim_C9_parse_info_amended "Stockfish dev ready").2.2 "hello" ["world"]
     [] (by decide)⟩

/-- C9 counterexample: `parse_info_line` is not total — on the line
`info depth x` the `int("x")` conversion raises a `ValueError`, so no
map is returned. -/
theorem claim_C9_cex :
    parse_info_line "info depth x" = Except.error (intErr "x") ∧
    (parse_info_line "info depth x").isOk = false := by
  constructor <;> decide

/-! Store reconciliation (claim C7). -/

theorem reconcile_logsFold (L : String) (hL : L ≠ "") (now : Int) :
    ∀ (ids : List String) (acc : Store),
    ((ids.foldl (fun a id => append_log a id now L) acc).logs =
      acc.logs ++ ids.map (fun id => (id, now, L))) ∧
    ((ids.foldl (fun a id => append_log a id now L) acc).jobs = acc.jobs) := by
  intro ids
  induction ids with
  | nil => intro acc; simp
  | cons id rest ih =>
    intro acc
    simp only [List.foldl_cons, List.map_cons]
    have h := ih (append_log acc id now L)
    rw [h.1, h.2]
    simp [append_log, hL]

/-- C7 (amended): `mark_incomplete_as_error(now)` turns exactly the rows
whose status is PENDING/QUEUED/RUNNING into ERROR, stamping
`finished_at_ms` with `now` only where it was unset and `last_update_ms`
with `now` on every affected row, leaves every other row (and the log
table) unchanged, and returns the list of affected ids; the startup
caller then appends the log line `[server] restart: job aborted` (not
`server restart: job aborted` as the claim words it) for each returned
id, touching nothing else. -/
theorem claim_C7_reconcile_amended (now : Int) (st : Store) :
    ((mark_incomplete_as_error now st).1 =
      (st.jobs.filter (fun r => incompleteStatus r.status)).map
        (fun r => r.id)) ∧
    ((mark_incomplete_as_error now st).2.jobs = st.jobs.map (fun r =>
      if incompleteStatus r.status then
        { r with status := JOB_ERROR
                 finished_at_ms := some (r.finished_at_ms.getD now)
                 last_update_ms := now }
      else r)) ∧
    ((mark_incomplete_as_error now st).2.logs = st.logs) ∧
    ((startupReconcile now st).1 = (mark_incomplete_as_error now st).1) ∧
    ((startupReconcile now st).2.jobs = (mark_incomplete_as_error now st).2.jobs) ∧
    ((startupReconcile now st).2.logs = st.logs ++
      (mark_incomplete_as_error now st).1.map
        (fun id => (id, now, "[server] restart: job aborted"))) := by
  have hfold := reconcile_logsFold "[server] restart: job aborted"
    (by decide) now
  by_cases hids : ((st.jobs.filter
      (fun r => incompleteStatus r.status)).map (fun r => r.id)).isEmpty
  · have hnil : (st.jobs.filter (fun r => incompleteStatus r.status)) = [] := by
      rcases hfil : st.jobs.filter (fun r => incompleteStatus r.status) with
        _ | ⟨a, l⟩
      · exact hfil
      · rw [hfil] at hids
        simp [List.isEmpty] at hids
    have hall : ∀ r ∈ st.jobs, incompleteStatus r.status = false := by
      intro r hr
      by_contra hcon
      have : r ∈ st.jobs.filter (fun r => incompleteStatus r.status) := by
        rw [List.mem_filter]
        exact ⟨hr, by simpa using hcon⟩
      rw [hnil] at this
      simp at this
    have hmark : mark_incomplete_as_error now st = ([], st) := by
      simp [mark_incomplete_as_error, hids]
    have hmap : st.jobs.map (fun r =>
        if incompleteStatus r.status then
          { r with status := JOB_ERROR
                   finished_at_ms := some (r.finished_at_ms.getD now)
                   last_update_ms := now }
        else r) = st.jobs := by
      conv_rhs => rw [← List.map_id st.jobs]
      refine List.map_congr_left ?_
      intro r hr
      simp [hall r hr]
    refine ⟨?_, ?_, ?_, ?_, ?_, ?_⟩ <;>
      simp [startupReconcile, hmark, hnil, hmap]
  · have hmark : mark_incomplete_as_error now st =
        ((st.jobs.filter (fun r => incompleteStatus r.status)).map
          (fun r => r.id),
         { st with jobs := st.jobs.map (fun r =>
            if incompleteStatus r.status then
              { r with status := JOB_ERROR
                       finished_at_ms := some (r.finished_at_ms.getD now)
                       last_update_ms := now }
            else r) }) := by
      simp [mark_incomplete_as_error, hids]
    refine ⟨?_, ?_, ?_, ?_, ?_, ?_⟩ <;>
      simp [startupReconcile, hmark, (hfold _ _).1, (hfold _ _).2]

/-- C7 counterexample: the log line the startup caller actually appends
is `[server] restart: job aborted`, not the claimed
`server restart: job aborted`. -/
theorem claim_C7_cex :
    (startupReconcile 5
      ⟨[⟨"a", "", "", 0, 0, 1, JOB_RUNNING, 1, some 2, none, 3, "", []⟩],
        []⟩).2.logs = [("a", 5, "[server] restart: job aborted")] ∧
    ("[server] restart: job aborted" : String) ≠
      "server restart: job aborted" := by
  constructor <;> decide

/-! Round trip through the store (claim C8). -/

theorem pyOrStr_empty (a : String) : pyOrStr a "" = a := by
  by_cases h : a = "" <;> simp [pyOrStr, h]

theorem pyOrInt_zero (a : Int) : pyOrInt a 0 = a := by
  by_cases h : a = 0 <;> simp [pyOrInt, h]

theorem pyOrInt_of_ne (a d : Int) (h : a ≠ 0) : pyOrInt a d = a := by
  simp [pyOrInt, h]

theorem pyOrD_empty_right (a : FieldDict) : pyOrD a [] = a := by
  cases a <;> simp [pyOrD, dTruthy]

theorem pyOrD_empty_left (a : FieldDict) : pyOrD [] a = a := by
  simp [pyOrD, dTruthy]

theorem mGet_str_of_intKeys (m : MpvMap)
    (hk : ∀ p ∈ m, keyIsInt p.1 = true) (v : String) :
    mGet m (MKey.s v) = none := by
  induction m with
  | nil => rfl
  | cons p rest ih =>
    obtain ⟨k1, v1⟩ := p
    match k1, hk ⟨k1, v1⟩ (by simp) with
    | MKey.i n, _ =>
      rw [mGet]
      rw [if_neg (by simp)]
      exact ih (fun q hq => hk q (by simp [hq]))

theorem mGet_ser_int (m : MpvMap) (k : Int) :
    mGet (m.map (fun p => (MKey.s (mkeyStr p.1), p.2))) (MKey.i k) = none := by
  induction m with
  | nil => rfl
  | cons p rest ih =>
    rw [List.map_cons, mGet, if_neg (by simp)]
    exact ih

theorem mGet_ser_str (m : MpvMap) (hk : ∀ p ∈ m, keyIsInt p.1 = true)
    (k : Int) :
    mGet (m.map (fun p => (MKey.s (mkeyStr p.1), p.2)))
      (MKey.s (pyStrOfInt k)) = mGet m (MKey.i k) := by
  induction m with
  | nil => rfl
  | cons p rest ih =>
    obtain ⟨k1, v1⟩ := p
    match k1, hk ⟨k1, v1⟩ (by simp) with
    | MKey.i n, _ =>
      rw [List.map_cons, mGet, mGet]
      by_cases hnk : n = k
      · subst hnk
        rw [if_pos (by simp [mkeyStr]), if_pos rfl]
      · rw [if_neg ?_, if_neg ?_]
        · exact ih (fun q hq => hk q (by simp [hq]))
        · simp [hnk]
        · simp [mkeyStr]
          intro hstr
          exact hnk (pyStrOfInt_inj hstr)

theorem keys_ser (m : MpvMap) (hk : ∀ p ∈ m, keyIsInt p.1 = true) :
    ((m.map (fun p => (MKey.s (mkeyStr p.1), p.2))).map
      (fun p => p.1)).filterMap keyToInt =
    (m.map (fun p => p.1)).filterMap keyToInt := by
  induction m with
  | nil => rfl
  | cons p rest ih =>
    obtain ⟨k1, v1⟩ := p
    match k1, hk ⟨k1, v1⟩ (by simp) with
    | MKey.i n, _ =>
      simp only [List.map_cons, List.filterMap_cons]
      rw [show keyToInt (MKey.s (mkeyStr (MKey.i n))) = some n from by
        simp [keyToInt, mkeyStr, pyInt_pyStrOfInt]]
      rw [show keyToInt (MKey.i n) = some n from rfl]
      rw [ih (fun q hq => hk q (by simp [hq]))]

/-- C8: writing a record with `upsert_job` (whose JSON blob stringifies
the integer multipv keys) and rehydrating the row with `_row_to_record`
yields, through `_record_to_dict`, the same scalar fields, the same
`snapshot` (multipv 1), and the same `lines` array as the original
record: the integer-keyed lookup succeeds whether the stored keys are
ints or their string forms.  Only the `log_tail` differs (the rehydrated
in-memory log starts empty; the code refills it from the `job_logs`
table, not from the blob).  The timestamp/multipv hypotheses exclude the
zero values on which the Python `or`-defaulting in `_row_to_record`
would substitute a default. -/
theorem claim_C8_store_roundtrip (now : Int) (rec : JobRecord) (tail : Int)
    (hkeys : ∀ p ∈ rec.last_by_mpv, keyIsInt p.1 = true)
    (hc : rec.created_at_ms ≠ 0) (hl : rec.last_update_ms ≠ 0)
    (hm : rec.multipv ≠ 0) :
    record_to_dict (row_to_record now (upsertRow rec)) tail =
      { record_to_dict rec tail with log_tail := [] } := by
  have hser : (row_to_record now (upsertRow rec)).last_by_mpv =
      rec.last_by_mpv.map (fun p => (MKey.s (mkeyStr p.1), p.2)) := by
    show (rec.last_by_mpv.map (fun p => (mkeyStr p.1, p.2))).map
        (fun p => (MKey.s p.1, p.2)) = _
    rw [List.map_map]
    rfl
  have hgi : ∀ k : Int, mGetD (rec.last_by_mpv.map
      (fun p => (MKey.s (mkeyStr p.1), p.2))) (MKey.i k) = [] := by
    intro k
    simp [mGetD, mGet_ser_int]
  have hgs : ∀ k : Int, mGetD (rec.last_by_mpv.map
      (fun p => (MKey.s (mkeyStr p.1), p.2))) (MKey.s (pyStrOfInt k)) =
      mGetD rec.last_by_mpv (MKey.i k) := by
    intro k
    simp [mGetD, mGet_ser_str rec.last_by_mpv hkeys k]
  have horig : ∀ v : String, mGetD rec.last_by_mpv (MKey.s v) = [] := by
    intro v
    simp [mGetD, mGet_str_of_intKeys rec.last_by_mpv hkeys v]
  have hline : ∀ k : Int,
      pyOrD (pyOrD (mGetD (row_to_record now (upsertRow rec)).last_by_mpv
          (MKey.i k))
        (mGetD (row_to_record now (upsertRow rec)).last_by_mpv
          (MKey.s (pyStrOfInt k)))) [] =
      pyOrD (pyOrD (mGetD rec.last_by_mpv (MKey.i k))
        (mGetD rec.last_by_mpv (MKey.s (pyStrOfInt k)))) [] := by
    intro k
    rw [hser, hgi, hgs, horig, pyOrD_empty_left, pyOrD_empty_right,
      pyOrD_empty_right]
  have hsnap0 :
      pyOrD (pyOrD (mGetD (row_to_record now (upsertRow rec)).last_by_mpv
          (MKey.i 1))
        (mGetD (row_to_record now (upsertRow rec)).last_by_mpv
          (MKey.s "1"))) [] =
      pyOrD (pyOrD (mGetD rec.last_by_mpv (MKey.i 1))
        (mGetD rec.last_by_mpv (MKey.s "1"))) [] := by
    have h1 : ("1" : String) = pyStrOfInt 1 := by decide
    rw [h1]
    exact hline 1
  have hkeyseq : ((row_to_record now (upsertRow rec)).last_by_mpv.map
        (fun p => p.1)).filterMap keyToInt =
      (rec.last_by_mpv.map (fun p => p.1)).filterMap keyToInt := by
    rw [hser]
    exact keys_ser rec.last_by_mpv hkeys
  have hbm : (row_to_record now (upsertRow rec)).bestmove = rec.bestmove :=
    pyOrStr_empty _
  have hcomp : row_to_record now (upsertRow rec) =
      { rec with
          last_by_mpv := rec.last_by_mpv.map
            (fun p => (MKey.s (mkeyStr p.1), p.2))
          log := []
          hist := [rec.status] } := by
    simp only [row_to_record, upsertRow, JOB_PENDING]
    rw [pyOrStr_empty, pyOrStr_empty, pyOrStr_empty, pyOrInt_zero,
      pyOrInt_zero, pyOrInt_zero, pyOrInt_of_ne _ _ hm,
      pyOrInt_of_ne _ _ hc, pyOrInt_of_ne _ _ hl]
    rw [List.map_map]
    rfl
  simp only [record_to_dict]
  rw [hkeyseq, hsnap0, hbm]
  have hmapeq : (sortInts (dedupInts ((rec.last_by_mpv.map
        (fun p => p.1)).filterMap keyToInt))).map (fun mpv =>
      pySet (pyOrD (pyOrD
          (mGetD (row_to_record now (upsertRow rec)).last_by_mpv
            (MKey.i mpv))
          (mGetD (row_to_record now (upsertRow rec)).last_by_mpv
            (MKey.s (pyStrOfInt mpv)))) [])
        "multipv" (JsonVal.i mpv)) =
      (sortInts (dedupInts ((rec.last_by_mpv.map
        (fun p => p.1)).filterMap keyToInt))).map (fun mpv =>
      pySet (pyOrD (pyOrD (mGetD rec.last_by_mpv (MKey.i mpv))
          (mGetD rec.last_by_mpv (MKey.s (pyStrOfInt mpv)))) [])
        "multipv" (JsonVal.i mpv)) :=
    List.map_congr_left (fun k _ => by rw [hline k])
  rw [hmapeq, hcomp]
  simp [pySliceTail]

/-- Witness for C8: the concrete record `recW` round-trips through the
store up to its `log_tail`. -/
theorem claim_C8_witness :
    (∀ p ∈ recW.last_by_mpv, keyIsInt p.1 = true) ∧
    recW.created_at_ms ≠ 0 ∧ recW.last_update_ms ≠ 0 ∧ recW.multipv ≠ 0 ∧
    record_to_dict (row_to_record 999 (upsertRow recW)) 200 =
      { record_to_dict recW 200 with log_tail := [] } :=
  ⟨by decide, by decide, by decide, by decide,
   claim_C8_store_roundtrip 999 recW 200 (by decide) (by decide)
     (by decide) (by decide)⟩

/-! Server state infrastructure lemmas. -/

theorem rGet_rSet_self (rs : List (String × JobRecord)) (id : String)
    (rec : JobRecord) : rGet (rSet rs id rec) id = some rec := by
  induction rs with
  | nil => simp [rSet, rGet]
  | cons p rest ih =>
    obtain ⟨k, r⟩ := p
    by_cases hk : k == id
    · simp [rSet, hk, rGet]
    · simp only [rSet, hk, Bool.false_eq_true, if_false, rGet]
      exact ih

theorem rGet_rSet_ne (rs : List (String × JobRecord)) (id id2 : String)
    (rec : JobRecord) (h : id2 ≠ id) :
    rGet (rSet rs id rec) id2 = rGet rs id2 := by
  induction rs with
  | nil =>
    simp only [rSet, rGet]
    rw [if_neg (by simpa using Ne.symm h)]
  | cons p rest ih =>
    obtain ⟨k, r⟩ := p
    by_cases hk : k == id
    · have hk2 : ¬ (id == id2) := by
        simp only [beq_iff_eq]
        exact Ne.symm h
      have hk3 : ¬ (k == id2) := by
        simp only [beq_iff_eq] at hk ⊢
        rw [hk]
        exact Ne.symm h
      simp [rSet, hk, rGet, hk2, hk3]
    · simp only [rSet, hk, Bool.false_eq_true, if_false, rGet]
      by_cases hk2 : k == id2
      · simp [hk2]
      · simp only [hk2, Bool.false_eq_true, if_false]
        exact ih

theorem send_job_update_frame (ts tc : Int) (jid : String) (status : Int)
    (fields : FieldDict) (ll : Option String) (s : Srv) :
    (send_job_update ts tc jid status fields ll s).active = s.active ∧
    (send_job_update ts tc jid status fields ll s).pending = s.pending ∧
    (send_job_update ts tc jid status fields ll s).maxJobs = s.maxJobs ∧
    (send_job_update ts tc jid status fields ll s).clock = s.clock :=
  ⟨rfl, rfl, rfl, rfl⟩

theorem send_job_update_rGet_self (ts tc : Int) (jid : String)
    (status : Int) (fields : FieldDict) (ll : Option String) (s : Srv) :
    rGet (send_job_update ts tc jid status fields ll s).records jid =
      some (updateRecord ts status fields ll
        ((rGet s.records jid).getD (newRecord jid tc))) :=
  rGet_rSet_self _ _ _

theorem send_job_update_rGet_ne (ts tc : Int) (jid : String)
    (status : Int) (fields : FieldDict) (ll : Option String) (s : Srv)
    (id2 : String) (h : id2 ≠ jid) :
    rGet (send_job_update ts tc jid status fields ll s).records id2 =
      rGet s.records id2 :=
  rGet_rSet_ne _ _ _ _ h

theorem updateRecord_core (ts : Int) (status : Int) (fields : FieldDict)
    (ll : Option String) (rec0 : JobRecord) :
    (updateRecord ts status fields ll rec0).created_at_ms =
      rec0.created_at_ms ∧
    (updateRecord ts status fields ll rec0).last_update_ms = ts ∧
    (updateRecord ts status fields ll rec0).status = status ∧
    (updateRecord ts status fields ll rec0).hist = rec0.hist ++ [status] :=
  ⟨rfl, rfl, rfl, rfl⟩

theorem updateRecord_bestmove (ts : Int) (status : Int)
    (fields : FieldDict) (ll : Option String) (rec0 : JobRecord)
    (h : hasKey fields "bestmove" = false) :
    (updateRecord ts status fields ll rec0).bestmove = rec0.bestmove := by
  simp [updateRecord, h]

theorem tsnAux_frame : ∀ (fuel : Nat) (s : Srv),
    (tsnAux fuel s).records = s.records ∧
    (tsnAux fuel s).store = s.store ∧
    (tsnAux fuel s).maxJobs = s.maxJobs ∧
    (tsnAux fuel s).clock = s.clock := by
  intro fuel
  induction fuel with
  | zero => intro s; exact ⟨rfl, rfl, rfl, rfl⟩
  | succ fuel ih =>
    intro s
    rw [tsnAux]
    split
    · exact ⟨rfl, rfl, rfl, rfl⟩
    · split
      · exact ⟨rfl, rfl, rfl, rfl⟩
      · exact ih _

theorem try_start_next_frame (s : Srv) :
    (try_start_next s).records = s.records ∧
    (try_start_next s).store = s.store ∧
    (try_start_next s).maxJobs = s.maxJobs ∧
    (try_start_next s).clock = s.clock :=
  tsnAux_frame _ _

/-! Bounded concurrency (claim C3). -/

theorem tsnAux_bound : ∀ (fuel : Nat) (s : Srv),
    (s.maxJobs > 0 → (s.active.length : Int) ≤ s.maxJobs) →
    ((tsnAux fuel s).maxJobs > 0 →
      ((tsnAux fuel s).active.length : Int) ≤ (tsnAux fuel s).maxJobs) := by
  intro fuel
  induction fuel with
  | zero => intro s h; exact h
  | succ fuel ih =>
    intro s h
    rw [tsnAux]
    split
    · exact h
    · next hfull =>
      split
      · exact h
      · apply ih
        intro hm
        simp only [List.length_append, List.length_cons, List.length_nil]
        push_neg at hfull
        have := hfull hm
        push_cast
        omega

theorem try_start_next_bound (s : Srv)
    (h : s.maxJobs > 0 → (s.active.length : Int) ≤ s.maxJobs) :
    (try_start_next s).maxJobs > 0 →
      ((try_start_next s).active.length : Int) ≤ (try_start_next s).maxJobs :=
  tsnAux_bound _ _ h

theorem submit_job_bound (t1 t2 : Int) (job : PendingJob) (s : Srv)
    (h : s.maxJobs > 0 → (s.active.length : Int) ≤ s.maxJobs) :
    (submit_job t1 t2 job s).maxJobs > 0 →
      ((submit_job t1 t2 job s).active.length : Int) ≤
        (submit_job t1 t2 job s).maxJobs := by
  simp only [submit_job]
  split
  · exact h
  · split
    · exact h
    · split
      · exact try_start_next_bound _ h
      · next hfree =>
        have hfree2 : ¬ (s.maxJobs > 0 ∧
            (s.active.length : Int) ≥ s.maxJobs) := hfree
        intro hm
        show ((s.active ++ [Runner.mk job.job_id Phase.spawned false]).length
          : Int) ≤ s.maxJobs
        have hm2 : s.maxJobs > 0 := hm
        push_neg at hfree2
        have := hfree2 hm2
        simp only [List.length_append, List.length_cons, List.length_nil]
        push_cast
        omega

theorem cancel_job_bound (ts : Int) (id : String) (s : Srv)
    (h : s.maxJobs > 0 → (s.active.length : Int) ≤ s.maxJobs) :
    (cancel_job ts id s).maxJobs > 0 →
      ((cancel_job ts id s).active.length : Int) ≤
        (cancel_job ts id s).maxJobs := by
  simp only [cancel_job]
  split
  · intro hm
    show ((s.active.map (fun r =>
      if r.jobId == id then { r with cancelled := true } else r)).length :
        Int) ≤ s.maxJobs
    rw [List.length_map]
    exact h hm
  · split
    · exact try_start_next_bound _ h
    · exact h

theorem runner_started_bound (ts : Int) (id : String) (s : Srv)
    (h : s.maxJobs > 0 → (s.active.length : Int) ≤ s.maxJobs) :
    (runner_started ts id s).maxJobs > 0 →
      ((runner_started ts id s).active.length : Int) ≤
        (runner_started ts id s).maxJobs := by
  simp only [runner_started]
  split
  · intro hm
    show ((s.active.map (fun r =>
      if r.jobId == id then { r with phase := Phase.running } else r)).length
        : Int) ≤ s.maxJobs
    rw [List.length_map]
    exact h hm
  · exact h

theorem runner_info_bound (ts : Int) (id : String) (fields : FieldDict)
    (ll : Option String) (s : Srv)
    (h : s.maxJobs > 0 → (s.active.length : Int) ≤ s.maxJobs) :
    (runner_info ts id fields ll s).maxJobs > 0 →
      ((runner_info ts id fields ll s).active.length : Int) ≤
        (runner_info ts id fields ll s).maxJobs := by
  simp only [runner_info]
  split
  · exact h
  · exact h

theorem runner_terminal_bound (ts : Int) (id : String) (status : Int)
    (fields : FieldDict) (ll : Option String) (s : Srv)
    (h : s.maxJobs > 0 → (s.active.length : Int) ≤ s.maxJobs) :
    (runner_terminal ts id status fields ll s).maxJobs > 0 →
      ((runner_terminal ts id status fields ll s).active.length : Int) ≤
        (runner_terminal ts id status fields ll s).maxJobs := by
  simp only [runner_terminal]
  split
  · intro hm
    show ((s.active.map (fun r =>
      if r.jobId == id then { r with phase := Phase.done } else r)).length
        : Int) ≤ s.maxJobs
    rw [List.length_map]
    exact h hm
  · exact h

theorem runner_exit_bound (id : String) (s : Srv)
    (h : s.maxJobs > 0 → (s.active.length : Int) ≤ s.maxJobs) :
    (runner_exit id s).maxJobs > 0 →
      ((runner_exit id s).active.length : Int) ≤
        (runner_exit id s).maxJobs := by
  simp only [runner_exit]
  split
  · apply try_start_next_bound
    intro hm
    show ((s.active.filter (fun r => !(r.jobId == id))).length : Int) ≤
      s.maxJobs
    have h2 := h hm
    have h3 : (s.active.filter (fun r => !(r.jobId == id))).length ≤
        s.active.length := List.length_filter_le _ _
    push_cast at h2 ⊢
    omega
  · exact h

theorem applyOp_bound (op : SrvOp) (s : Srv)
    (h : s.maxJobs > 0 → (s.active.length : Int) ≤ s.maxJobs) :
    (applyOp op s).maxJobs > 0 →
      ((applyOp op s).active.length : Int) ≤ (applyOp op s).maxJobs := by
  cases op with
  | submit t1 t2 job => exact submit_job_bound t1 t2 job s h
  | cancel ts id => exact cancel_job_bound ts id s h
  | started ts id => exact runner_started_bound ts id s h
  | info ts id fields ll => exact runner_info_bound ts id fields ll s h
  | terminal ts id status fields ll =>
    exact runner_terminal_bound ts id status fields ll s h
  | exit id => exact runner_exit_bound id s h

/-- C3: in every reachable server state with `max_jobs > 0`, the number
of entries of the `active` map is at most `max_jobs`: `submit_job` only
starts a driver when a slot is free (else it queues), and
`_try_start_next` only pops the pending queue while a slot is free. -/
theorem claim_C3_bounded_concurrency (m : Int) (s : Srv)
    (h : Reach (initSrv m) s) (hm : s.maxJobs > 0) :
    (s.active.length : Int) ≤ s.maxJobs := by
  suffices hinv : s.maxJobs > 0 → (s.active.length : Int) ≤ s.maxJobs from
    hinv hm
  clear hm
  induction h with
  | refl =>
    intro hmm
    simp only [initSrv] at hmm ⊢
    simp only [List.length_nil, Nat.cast_zero]
    omega
  | tail h1 h2 ih =>
    obtain ⟨op, hok, rfl⟩ := h2
    exact applyOp_bound op _ ih

/-- Witness for C3: a concrete state after one submission. -/
theorem claim_C3_witness :
    Reach (initSrv 1) (applyOp (SrvOp.submit 1 1 jobW) (initSrv 1)) ∧
    (1 : Int) > 0 ∧
    ((applyOp (SrvOp.submit 1 1 jobW) (initSrv 1)).active.length : Int) ≤
      (applyOp (SrvOp.submit 1 1 jobW) (initSrv 1)).maxJobs :=
  ⟨Relation.ReflTransGen.tail Relation.ReflTransGen.refl
    ⟨SrvOp.submit 1 1 jobW, by simp only [opOk, initSrv]; decide, rfl⟩,
   by decide,
   claim_C3_bounded_concurrency 1 _
    (Relation.ReflTransGen.tail Relation.ReflTransGen.refl
      ⟨SrvOp.submit 1 1 jobW, by simp only [opOk, initSrv]; decide, rfl⟩)
    (by decide)⟩

/-! Idempotent submission (claim C1). -/

theorem rGet_rSet_isSome (rs : List (String × JobRecord)) (k : String)
    (v : JobRecord) (id : String) (h : (rGet rs id).isSome = true) :
    (rGet (rSet rs k v) id).isSome = true := by
  by_cases hk : id = k
  · subst hk
    rw [rGet_rSet_self]
    rfl
  · rw [rGet_rSet_ne _ _ _ _ hk]
    exact h

theorem sju_records_isSome (ts tc : Int) (jid : String) (status : Int)
    (fields : FieldDict) (ll : Option String) (s : Srv) (id : String)
    (h : (rGet s.records id).isSome = true) :
    (rGet (send_job_update ts tc jid status fields ll s).records
      id).isSome = true := by
  by_cases hid : id = jid
  · subst hid
    rw [send_job_update_rGet_self]
    rfl
  · rw [send_job_update_rGet_ne _ _ _ _ _ _ _ _ hid]
    exact h

theorem submit_job_records_isSome (t1 t2 : Int) (job : PendingJob)
    (s : Srv) (id : String) (h : (rGet s.records id).isSome = true) :
    (rGet (submit_job t1 t2 job s).records id).isSome = true := by
  simp only [submit_job]
  split
  · exact h
  · split
    · exact h
    · split
      · rw [(try_start_next_frame _).1]
        exact sju_records_isSome _ _ _ _ _ _ _ _
          (rGet_rSet_isSome _ _ _ _ h)
      · exact rGet_rSet_isSome _ _ _ _ h

theorem cancel_job_records_isSome (ts : Int) (jid : String) (s : Srv)
    (id : String) (h : (rGet s.records id).isSome = true) :
    (rGet (cancel_job ts jid s).records id).isSome = true := by
  simp only [cancel_job]
  split
  · exact h
  · split
    · rw [(try_start_next_frame _).1]
      exact sju_records_isSome _ _ _ _ _ _ _ _ h
    · exact h

theorem runner_started_records_isSome (ts : Int) (jid : String) (s : Srv)
    (id : String) (h : (rGet s.records id).isSome = true) :
    (rGet (runner_started ts jid s).records id).isSome = true := by
  simp only [runner_started]
  split
  · exact sju_records_isSome _ _ _ _ _ _ _ _ h
  · exact h

theorem runner_info_records_isSome (ts : Int) (jid : String)
    (fields : FieldDict) (ll : Option String) (s : Srv) (id : String)
    (h : (rGet s.records id).isSome = true) :
    (rGet (runner_info ts jid fields ll s).records id).isSome = true := by
  simp only [runner_info]
  split
  · exact sju_records_isSome _ _ _ _ _ _ _ _ h
  · exact h

theorem runner_terminal_records_isSome (ts : Int) (jid : String)
    (status : Int) (fields : FieldDict) (ll : Option String) (s : Srv)
    (id : String) (h : (rGet s.records id).isSome = true) :
    (rGet (runner_terminal ts jid status fields ll s).records
      id).isSome = true := by
  simp only [runner_terminal]
  split
  · exact sju_records_isSome _ _ _ _ _ _ _ _ h
  · exact h

theorem runner_exit_records_isSome (jid : String) (s : Srv) (id : String)
    (h : (rGet s.records id).isSome = true) :
    (rGet (runner_exit jid s).records id).isSome = true := by
  simp only [runner_exit]
  split
  · rw [(try_start_next_frame _).1]
    exact h
  · exact h

theorem applyOp_records_isSome (op : SrvOp) (s : Srv) (id : String)
    (h : (rGet s.records id).isSome = true) :
    (rGet (applyOp op s).records id).isSome = true := by
  cases op with
  | submit t1 t2 job => exact submit_job_records_isSome t1 t2 job s id h
  | cancel ts jid => exact cancel_job_records_isSome ts jid s id h
  | started ts jid => exact runner_started_records_isSome ts jid s id h
  | info ts jid fields ll =>
    exact runner_info_records_isSome ts jid fields ll s id h
  | terminal ts jid status fields ll =>
    exact runner_terminal_records_isSome ts jid status fields ll s id h
  | exit jid => exact runner_exit_records_isSome jid s id h

theorem Reach_records_isSome (s s' : Srv) (id : String)
    (h : Reach s s') (hs : (rGet s.records id).isSome = true) :
    (rGet s'.records id).isSome = true := by
  induction h with
  | refl => exact hs
  | tail h1 h2 ih =>
    obtain ⟨op, hok, rfl⟩ := h2
    exact applyOp_records_isSome op _ _ ih

theorem tsnAux_IdsInv : ∀ (fuel : Nat) (s : Srv),
    IdsInv s → IdsInv (tsnAux fuel s) := by
  intro fuel
  induction fuel with
  | zero => intro s h; exact h
  | succ fuel ih =>
    intro s h
    rw [tsnAux]
    split
    · exact h
    · split
      · exact h
      · next job rest hp =>
        apply ih
        refine ⟨?_, ?_⟩
        · intro r hr
          have hr2 : r ∈ s.active ++ [Runner.mk job.job_id
              Phase.spawned false] := hr
          rcases List.mem_append.mp hr2 with h1 | h1
          · exact h.1 r h1
          · have h2 : r = Runner.mk job.job_id Phase.spawned false :=
              List.mem_singleton.mp h1
            subst h2
            exact h.2 job (by rw [hp]; exact List.mem_cons_self _ _)
        · intro p hpm
          have hpm2 : p ∈ rest := hpm
          exact h.2 p (by rw [hp]; exact List.mem_cons_of_mem _ hpm2)

theorem try_start_next_IdsInv (s : Srv) (h : IdsInv s) :
    IdsInv (try_start_next s) := tsnAux_IdsInv _ s h

theorem submit_job_IdsInv (t1 t2 : Int) (job : PendingJob) (s : Srv)
    (h : IdsInv s) : IdsInv (submit_job t1 t2 job s) := by
  simp only [submit_job]
  split
  · exact h
  · split
    · exact h
    · split
      · apply try_start_next_IdsInv
        refine ⟨?_, ?_⟩
        · intro r hr
          exact sju_records_isSome _ _ _ _ _ _ _ _
            (rGet_rSet_isSome _ _ _ _ (h.1 r hr))
        · intro p hpm
          have hpm2 : p ∈ s.pending ++ [job] := hpm
          rcases List.mem_append.mp hpm2 with h1 | h1
          · exact sju_records_isSome _ _ _ _ _ _ _ _
              (rGet_rSet_isSome _ _ _ _ (h.2 p h1))
          · have h2 : p = job := List.mem_singleton.mp h1
            subst h2
            exact sju_records_isSome _ _ _ _ _ _ _ _
              (by rw [rGet_rSet_self]; rfl)
      · refine ⟨?_, ?_⟩
        · intro r hr
          have hr2 : r ∈ s.active ++ [Runner.mk job.job_id
              Phase.spawned false] := hr
          rcases List.mem_append.mp hr2 with h1 | h1
          · exact rGet_rSet_isSome _ _ _ _ (h.1 r h1)
          · have h2 : r = Runner.mk job.job_id Phase.spawned false :=
              List.mem_singleton.mp h1
            subst h2
            show (rGet (rSet s.records job.job_id (submitRecord job t1))
              job.job_id).isSome = true
            rw [rGet_rSet_self]
            rfl
        · intro p hpm
          exact rGet_rSet_isSome _ _ _ _ (h.2 p hpm)

theorem jobIdOf_cancel_map (id : String) (r0 : Runner) :
    (if r0.jobId == id then { r0 with cancelled := true } else r0).jobId =
      r0.jobId := by
  split <;> rfl

theorem jobIdOf_phase_map (id : String) (ph : Phase) (r0 : Runner) :
    (if r0.jobId == id then { r0 with phase := ph } else r0).jobId =
      r0.jobId := by
  split <;> rfl

theorem cancel_job_IdsInv (ts : Int) (jid : String) (s : Srv)
    (h : IdsInv s) : IdsInv (cancel_job ts jid s) := by
  simp only [cancel_job]
  split
  · refine ⟨?_, h.2⟩
    intro r hr
    have hr2 : r ∈ s.active.map (fun r =>
        if r.jobId == jid then { r with cancelled := true } else r) := hr
    obtain ⟨r0, hr0, heq⟩ := List.mem_map.mp hr2
    have hid : r.jobId = r0.jobId := by
      rw [← heq]
      exact jobIdOf_cancel_map jid r0
    rw [hid]
    exact h.1 r0 hr0
  · split
    · apply try_start_next_IdsInv
      refine ⟨?_, ?_⟩
      · intro r hr
        exact sju_records_isSome _ _ _ _ _ _ _ _ (h.1 r hr)
      · intro p hpm
        have hpm2 : p ∈ s.pending.eraseP (fun j => j.job_id == jid) := hpm
        exact sju_records_isSome _ _ _ _ _ _ _ _
          (h.2 p ((s.pending.eraseP_sublist).subset hpm2))
    · exact h

theorem runner_started_IdsInv (ts : Int) (jid : String) (s : Srv)
    (h : IdsInv s) : IdsInv (runner_started ts jid s) := by
  simp only [runner_started]
  split
  · refine ⟨?_, ?_⟩
    · intro r hr
      have hr2 : r ∈ s.active.map (fun r =>
          if r.jobId == jid then { r with phase := Phase.running }
          else r) := hr
      obtain ⟨r0, hr0, heq⟩ := List.mem_map.mp hr2
      have hid : r.jobId = r0.jobId := by
        rw [← heq]
        exact jobIdOf_phase_map jid Phase.running r0
      rw [hid]
      exact sju_records_isSome _ _ _ _ _ _ _ _ (h.1 r0 hr0)
    · intro p hpm
      exact sju_records_isSome _ _ _ _ _ _ _ _ (h.2 p hpm)
  · exact h

theorem runner_info_IdsInv (ts : Int) (jid : String)
    (fields : FieldDict) (ll : Option String) (s : Srv)
    (h : IdsInv s) : IdsInv (runner_info ts jid fields ll s) := by
  simp only [runner_info]
  split
  · refine ⟨?_, ?_⟩
    · intro r hr
      exact sju_records_isSome _ _ _ _ _ _ _ _ (h.1 r hr)
    · intro p hpm
      exact sju_records_isSome _ _ _ _ _ _ _ _ (h.2 p hpm)
  · exact h

theorem runner_terminal_IdsInv (ts : Int) (jid : String) (status : Int)
    (fields : FieldDict) (ll : Option String) (s : Srv)
    (h : IdsInv s) : IdsInv (runner_terminal ts jid status fields ll s) := by
  simp only [runner_terminal]
  split
  · refine ⟨?_, ?_⟩
    · intro r hr
      have hr2 : r ∈ s.active.map (fun r =>
          if r.jobId == jid then { r with phase := Phase.done }
          else r) := hr
      obtain ⟨r0, hr0, heq⟩ := List.mem_map.mp hr2
      have hid : r.jobId = r0.jobId := by
        rw [← heq]
        exact jobIdOf_phase_map jid Phase.done r0
      rw [hid]
      exact sju_records_isSome _ _ _ _ _ _ _ _ (h.1 r0 hr0)
    · intro p hpm
      exact sju_records_isSome _ _ _ _ _ _ _ _ (h.2 p hpm)
  · exact h

theorem runner_exit_IdsInv (jid : String) (s : Srv)
    (h : IdsInv s) : IdsInv (runner_exit jid s) := by
  simp only [runner_exit]
  split
  · apply try_start_next_IdsInv
    refine ⟨?_, ?_⟩
    · intro r hr
      have hr2 : r ∈ s.active.filter (fun r => !(r.jobId == jid)) := hr
      exact h.1 r (List.mem_of_mem_filter hr2)
    · intro p hpm
      exact h.2 p hpm
  · exact h

theorem applyOp_IdsInv (op : SrvOp) (s : Srv) (h : IdsInv s) :
    IdsInv (applyOp op s) := by
  cases op with
  | submit t1 t2 job => exact submit_job_IdsInv t1 t2 job s h
  | cancel ts jid => exact cancel_job_IdsInv ts jid s h
  | started ts jid => exact runner_started_IdsInv ts jid s h
  | info ts jid fields ll => exact runner_info_IdsInv ts jid fields ll s h
  | terminal ts jid status fields ll =>
    exact runner_terminal_IdsInv ts jid status fields ll s h
  | exit jid => exact runner_exit_IdsInv jid s h

theorem Reach_IdsInv (m : Int) (s : Srv) (h : Reach (initSrv m) s) :
    IdsInv s := by
  induction h with
  | refl =>
    refine ⟨?_, ?_⟩
    · intro r hr
      have hr2 : r ∈ ([] : List Runner) := hr
      exact absurd hr2 (List.not_mem_nil r)
    · intro p hpm
      have hpm2 : p ∈ ([] : List PendingJob) := hpm
      exact absurd hpm2 (List.not_mem_nil p)
  | tail h1 h2 ih =>
    obtain ⟨op, hok, rfl⟩ := h2
    exact applyOp_IdsInv op _ ih

theorem submit_records_after (t1 t2 : Int) (job : PendingJob) (s : Srv)
    (hinv : IdsInv s) :
    (rGet (submit_job t1 t2 job s).records job.job_id).isSome = true := by
  simp only [submit_job]
  split
  · next hrec => exact hrec
  · split
    · next hact =>
      have hact2 : s.active.any (fun r => r.jobId == job.job_id) = true ∨
          s.pending.any (fun j => j.job_id == job.job_id) = true := by
        simpa using hact
      rcases hact2 with h1 | h1
      · obtain ⟨r, hr, hb⟩ := List.any_eq_true.mp h1
        have hb2 : r.jobId = job.job_id := by simpa using hb
        rw [← hb2]
        exact hinv.1 r hr
      · obtain ⟨p, hpm, hb⟩ := List.any_eq_true.mp h1
        have hb2 : p.job_id = job.job_id := by simpa using hb
        rw [← hb2]
        exact hinv.2 p hpm
    · split
      · rw [(try_start_next_frame _).1]
        show (rGet (rSet (rSet s.records job.job_id (submitRecord job t1))
          job.job_id _) job.job_id).isSome = true
        rw [rGet_rSet_self]
        rfl
      · show (rGet (rSet s.records job.job_id (submitRecord job t1))
          job.job_id).isSome = true
        rw [rGet_rSet_self]
        rfl

theorem submit_job_noop (t1 t2 : Int) (job : PendingJob) (s : Srv)
    (h : (rGet s.records job.job_id).isSome = true) :
    submit_job t1 t2 job s = s := by
  rw [submit_job, if_pos h]

/-- C1: submission is idempotent by `job_id`.  Once `submit_job(j)` has
been applied to a reachable server state, every later `submit_job(j2)`
with `j2.job_id = j.job_id`, in any later reachable state, returns the
state unchanged (early return on `job_id in self.job_records`): no
record, active, pending or store mutation, and no driver spawned. -/
theorem claim_C1_submit_idempotent (m t1 t2 t3 t4 : Int) (s0 s2 : Srv)
    (job job2 : PendingJob)
    (h0 : Reach (initSrv m) s0)
    (h2 : Reach (applyOp (SrvOp.submit t1 t2 job) s0) s2)
    (hid : job2.job_id = job.job_id) :
    submit_job t3 t4 job2 s2 = s2 := by
  have hinv : IdsInv s0 := Reach_IdsInv m s0 h0
  have h1 : (rGet (applyOp (SrvOp.submit t1 t2 job) s0).records
      job.job_id).isSome = true :=
    submit_records_after t1 t2 job s0 hinv
  have h3 : (rGet s2.records job.job_id).isSome = true :=
    Reach_records_isSome _ _ _ h2 h1
  apply submit_job_noop
  rw [hid]
  exact h3

/-- Witness for C1: after submitting `jobW`, a resubmission with the
same id but different parameters leaves the state untouched. -/
theorem claim_C1_witness :
    submit_job 7 8 ⟨"j1", "x", "FEN9", 1, 9, 3⟩
      (applyOp (SrvOp.submit 1 1 jobW) (initSrv 1)) =
    applyOp (SrvOp.submit 1 1 jobW) (initSrv 1) :=
  claim_C1_submit_idempotent 1 1 1 7 8 (initSrv 1) _ jobW
    ⟨"j1", "x", "FEN9", 1, 9, 3⟩ Relation.ReflTransGen.refl
    Relation.ReflTransGen.refl rfl

/-! Timestamp monotonicity (claim C6). -/

theorem rGet_mem (rs : List (String × JobRecord)) (id : String)
    (r : JobRecord) (h : rGet rs id = some r) : (id, r) ∈ rs := by
  induction rs with
  | nil => simp [rGet] at h
  | cons p rest ih =>
    obtain ⟨k, r0⟩ := p
    by_cases hk : k == id
    · have hk2 : k = id := by simpa using hk
      subst hk2
      simp only [rGet, beq_self_eq_true, if_true] at h
      obtain rfl := Option.some.inj h
      exact List.mem_cons_self _ _
    · simp only [rGet, hk, if_false] at h
      exact List.mem_cons_of_mem _ (ih h)

theorem mem_rSet (rs : List (String × JobRecord)) (k : String)
    (v : JobRecord) (p : String × JobRecord) (h : p ∈ rSet rs k v) :
    p = (k, v) ∨ p ∈ rs := by
  induction rs with
  | nil =>
    simp only [rSet, List.mem_singleton] at h
    left
    exact h
  | cons q rest ih =>
    obtain ⟨k0, r0⟩ := q
    by_cases hk : k0 == k
    · simp only [rSet, hk, if_true] at h
      rcases List.mem_cons.mp h with h1 | h1
      · left; exact h1
      · right; exact List.mem_cons_of_mem _ h1
    · simp only [rSet, hk, if_false] at h
      rcases List.mem_cons.mp h with h1 | h1
      · right; rw [h1]; exact List.mem_cons_self _ _
      · rcases ih h1 with h2 | h2
        · left; exact h2
        · right; exact List.mem_cons_of_mem _ h2

theorem recsLE_mono (rs : List (String × JobRecord)) (t t2 : Int)
    (h : recsLE rs t) (ht : t ≤ t2) : recsLE rs t2 := by
  intro p hp
  exact ⟨le_trans (h p hp).1 ht, le_trans (h p hp).2 ht⟩

theorem recsLE_rSet (rs : List (String × JobRecord)) (k : String)
    (v : JobRecord) (t : Int) (h : recsLE rs t)
    (hl : v.last_update_ms ≤ t) (hc : v.created_at_ms ≤ t) :
    recsLE (rSet rs k v) t := by
  intro p hp
  rcases mem_rSet rs k v p hp with h1 | h1
  · rw [h1]
    exact ⟨hl, hc⟩
  · exact h p h1

theorem sju_recsLE (ts tc : Int) (jid : String) (status : Int)
    (fields : FieldDict) (ll : Option String) (s : Srv) (t : Int)
    (h : recsLE s.records t) (hts : ts ≤ t) (htc : tc ≤ t) :
    recsLE (send_job_update ts tc jid status fields ll s).records t := by
  apply recsLE_rSet _ _ _ _ h
  · have hcore := updateRecord_core ts status fields ll
      ((rGet s.records jid).getD (newRecord jid tc))
    rw [hcore.2.1]
    exact hts
  · have hcore := updateRecord_core ts status fields ll
      ((rGet s.records jid).getD (newRecord jid tc))
    rw [hcore.1]
    cases hg : rGet s.records jid with
    | some r =>
      simp only [Option.getD_some]
      exact (h (jid, r) (rGet_mem _ _ _ hg)).2
    | none =>
      simp only [Option.getD_none]
      exact htc

theorem applyOp_ClockInv (op : SrvOp) (s : Srv) (hinv : ClockInv s)
    (hok : opOk s op) : ClockInv (applyOp op s) := by
  cases op with
  | submit t1 t2 job =>
    obtain ⟨h1, h2⟩ := hok
    show recsLE (submit_job t1 t2 job s).records t2
    simp only [submit_job]
    split
    · exact recsLE_mono _ _ _ hinv (le_trans h1 h2)
    · split
      · exact recsLE_mono _ _ _ hinv (le_trans h1 h2)
      · split
        · rw [(try_start_next_frame _).1]
          exact sju_recsLE _ _ _ _ _ _ _ _
            (recsLE_rSet _ _ _ _
              (recsLE_mono _ _ _ hinv (le_trans h1 h2)) h2 h2)
            le_rfl le_rfl
        · exact recsLE_rSet _ _ _ _
            (recsLE_mono _ _ _ hinv (le_trans h1 h2)) h2 h2
  | cancel ts jid =>
    show recsLE (cancel_job ts jid s).records ts
    simp only [cancel_job]
    split
    · exact recsLE_mono _ _ _ hinv hok
    · split
      · rw [(try_start_next_frame _).1]
        exact sju_recsLE _ _ _ _ _ _ _ _
          (recsLE_mono _ _ _ hinv hok) le_rfl le_rfl
      · exact recsLE_mono _ _ _ hinv hok
  | started ts jid =>
    show recsLE (runner_started ts jid s).records ts
    simp only [runner_started]
    split
    · exact sju_recsLE _ _ _ _ _ _ _ _
        (recsLE_mono _ _ _ hinv hok) le_rfl le_rfl
    · exact recsLE_mono _ _ _ hinv hok
  | info ts jid fields ll =>
    show recsLE (runner_info ts jid fields ll s).records ts
    simp only [runner_info]
    split
    · exact sju_recsLE _ _ _ _ _ _ _ _
        (recsLE_mono _ _ _ hinv hok) le_rfl le_rfl
    · exact recsLE_mono _ _ _ hinv hok
  | terminal ts jid status fields ll =>
    show recsLE (runner_terminal ts jid status fields ll s).records ts
    simp only [runner_terminal]
    split
    · exact sju_recsLE _ _ _ _ _ _ _ _
        (recsLE_mono _ _ _ hinv hok) le_rfl le_rfl
    · exact recsLE_mono _ _ _ hinv hok
  | exit jid =>
    show recsLE (runner_exit jid s).records (runner_exit jid s).clock
    simp only [runner_exit]
    split
    · rw [(try_start_next_frame _).1]
      rw [(try_start_next_frame _).2.2.2]
      exact hinv
    · exact hinv

theorem Reach_ClockInv (m : Int) (s : Srv) (h : Reach (initSrv m) s) :
    ClockInv s := by
  induction h with
  | refl =>
    intro p hp
    have hp2 : p ∈ ([] : List (String × JobRecord)) := hp
    exact absurd hp2 (List.not_mem_nil p)
  | tail h1 h2 ih =>
    obtain ⟨op, hok, rfl⟩ := h2
    exact applyOp_ClockInv op _ ih hok

theorem rGet_after_sju (ts tc : Int) (jid : String) (status : Int)
    (fields : FieldDict) (ll : Option String) (s : Srv) (id : String)
    (r' : JobRecord)
    (h' : rGet (send_job_update ts tc jid status fields ll s).records id =
      some r') :
    (id = jid ∧ r'.last_update_ms = ts) ∨
    (id ≠ jid ∧ rGet s.records id = some r') := by
  by_cases hid : id = jid
  · left
    refine ⟨hid, ?_⟩
    subst hid
    rw [send_job_update_rGet_self] at h'
    obtain rfl := Option.some.inj h'
    exact rfl
  · right
    refine ⟨hid, ?_⟩
    rw [send_job_update_rGet_ne _ _ _ _ _ _ _ _ hid] at h'
    exact h'

theorem last_mono_of_sju (ts tc : Int) (jid : String) (status : Int)
    (fields : FieldDict) (ll : Option String) (s : Srv) (id : String)
    (r r' : JobRecord) (hC : recsLE s.records s.clock)
    (hclk : s.clock ≤ ts) (hr : rGet s.records id = some r)
    (h' : rGet (send_job_update ts tc jid status fields ll s).records id =
      some r') : r.last_update_ms ≤ r'.last_update_ms := by
  rcases rGet_after_sju ts tc jid status fields ll s id r' h' with
    ⟨hid, hlast⟩ | ⟨hid, heq⟩
  · rw [hlast]
    exact le_trans (hC (id, r) (rGet_mem _ _ _ hr)).1 hclk
  · rw [hr] at heq
    obtain rfl := Option.some.inj heq
    exact le_rfl

theorem applyOp_last_mono (op : SrvOp) (s : Srv) (hC : ClockInv s)
    (hok : opOk s op) (id : String) (r r' : JobRecord)
    (hr : rGet s.records id = some r)
    (hr' : rGet (applyOp op s).records id = some r') :
    r.last_update_ms ≤ r'.last_update_ms := by
  cases op with
  | submit t1 t2 job =>
    obtain ⟨hk1, hk2⟩ := hok
    have hr'2 : rGet (submit_job t1 t2 job s).records id = some r' := hr'
    simp only [submit_job] at hr'2
    split at hr'2
    · rw [hr] at hr'2
      obtain rfl := Option.some.inj hr'2
      exact le_rfl
    · next hrec =>
      split at hr'2
      · rw [hr] at hr'2
        obtain rfl := Option.some.inj hr'2
        exact le_rfl
      · have hne : id ≠ job.job_id := by
          intro hcon
          exact hrec (by rw [← hcon, hr]; rfl)
        split at hr'2
        · rw [(try_start_next_frame _).1] at hr'2
          rcases rGet_after_sju _ _ _ _ _ _ _ _ _ hr'2 with
            ⟨hid, hlast⟩ | ⟨hid, heq⟩
          · exact absurd hid hne
          · have heq2 : rGet (rSet s.records job.job_id
                (submitRecord job t1)) id = some r' := heq
            rw [rGet_rSet_ne _ _ _ _ hne, hr] at heq2
            obtain rfl := Option.some.inj heq2
            exact le_rfl
        · have heq2 : rGet (rSet s.records job.job_id
              (submitRecord job t1)) id = some r' := hr'2
          rw [rGet_rSet_ne _ _ _ _ hne, hr] at heq2
          obtain rfl := Option.some.inj heq2
          exact le_rfl
  | cancel ts jid =>
    have hr'2 : rGet (cancel_job ts jid s).records id = some r' := hr'
    rw [cancel_job] at hr'2
    split at hr'2
    · rw [hr] at hr'2
      obtain rfl := Option.some.inj hr'2
      exact le_rfl
    · split at hr'2
      · rw [(try_start_next_frame _).1] at hr'2
        exact last_mono_of_sju _ _ _ _ _ _ _ _ _ _ hC hok hr hr'2
      · rw [hr] at hr'2
        obtain rfl := Option.some.inj hr'2
        exact le_rfl
  | started ts jid =>
    have hr'2 : rGet (runner_started ts jid s).records id = some r' := hr'
    rw [runner_started] at hr'2
    split at hr'2
    · exact last_mono_of_sju _ _ _ _ _ _ _ _ _ _ hC hok hr hr'2
    · rw [hr] at hr'2
      obtain rfl := Option.some.inj hr'2
      exact le_rfl
  | info ts jid fields ll =>
    have hr'2 : rGet (runner_info ts jid fields ll s).records id =
      some r' := hr'
    rw [runner_info] at hr'2
    split at hr'2
    · exact last_mono_of_sju _ _ _ _ _ _ _ _ _ _ hC hok hr hr'2
    · rw [hr] at hr'2
      obtain rfl := Option.some.inj hr'2
      exact le_rfl
  | terminal ts jid status fields ll =>
    have hr'2 : rGet (runner_terminal ts jid status fields ll s).records
      id = some r' := hr'
    rw [runner_terminal] at hr'2
    split at hr'2
    · exact last_mono_of_sju _ _ _ _ _ _ _ _ _ _ hC hok hr hr'2
    · rw [hr] at hr'2
      obtain rfl := Option.some.inj hr'2
      exact le_rfl
  | exit jid =>
    have hr'2 : rGet (runner_exit jid s).records id = some r' := hr'
    rw [runner_exit] at hr'2
    split at hr'2
    · rw [(try_start_next_frame _).1] at hr'2
      rw [hr] at hr'2
      obtain rfl := Option.some.inj hr'2
      exact le_rfl
    · rw [hr] at hr'2
      obtain rfl := Option.some.inj hr'2
      exact le_rfl

theorem Reach_last_mono (m : Int) (s s' : Srv) (id : String)
    (r : JobRecord) (h0 : Reach (initSrv m) s) (h : Reach s s')
    (hr : rGet s.records id = some r) :
    ∀ r', rGet s'.records id = some r' →
      r.last_update_ms ≤ r'.last_update_ms := by
  induction h with
  | refl =>
    intro r' hr'
    rw [hr] at hr'
    obtain rfl := Option.some.inj hr'
    exact le_rfl
  | tail h1 h2 ih =>
    intro r' hr'
    obtain ⟨op, hok, rfl⟩ := h2
    have hb := Reach_records_isSome _ _ id h1 (by rw [hr]; rfl)
    obtain ⟨rb, hrb⟩ := Option.isSome_iff_exists.mp hb
    have hCb : ClockInv _ :=
      Reach_ClockInv m _ (Relation.ReflTransGen.trans h0 h1)
    exact le_trans (ih rb hrb)
      (applyOp_last_mono op _ hCb hok id rb r' hrb hr')

/-- C6 (amended): `last_update_ms` is non-decreasing over a record's
lifetime (every update overwrites it with a clock read no older than
every earlier one).  On `send_job_update`, an existing record keeps its
`created_at_ms` and gets `last_update_ms := ts`, the epoch read of line
578; but a record created on the fly gets `created_at_ms := tc` from the
later dataclass-default epoch read of line 584 while its
`last_update_ms` is still the earlier `ts`, so `last_update_ms ≥
created_at_ms` fails on the on-the-fly path whenever the clock advances
between the two reads. -/
theorem claim_C6_last_update (m : Int) :
    (∀ (s s' : Srv) (id : String) (r r' : JobRecord),
      Reach (initSrv m) s → Reach s s' →
      rGet s.records id = some r → rGet s'.records id = some r' →
      r.last_update_ms ≤ r'.last_update_ms) ∧
    (∀ (ts tc : Int) (jid : String) (status : Int) (fields : FieldDict)
      (ll : Option String) (s : Srv) (r : JobRecord),
      rGet s.records jid = some r →
      (rGet (send_job_update ts tc jid status fields ll s).records
        jid).map (fun x => (x.created_at_ms, x.last_update_ms)) =
        some (r.created_at_ms, ts)) ∧
    (∀ (ts tc : Int) (jid : String) (status : Int) (fields : FieldDict)
      (ll : Option String) (s : Srv),
      rGet s.records jid = none →
      (rGet (send_job_update ts tc jid status fields ll s).records
        jid).map (fun x => (x.created_at_ms, x.last_update_ms)) =
        some (tc, ts)) := by
  refine ⟨?_, ?_, ?_⟩
  · intro s s' id r r' h0 h hr hr'
    exact Reach_last_mono m s s' id r h0 h hr r' hr'
  · intro ts tc jid status fields ll s r h
    rw [send_job_update_rGet_self, h]
    simp only [Option.getD_some, Option.map_some']
    have hc := updateRecord_core ts status fields ll r
    rw [hc.1, hc.2.1]
  · intro ts tc jid status fields ll s h
    rw [send_job_update_rGet_self, h]
    simp only [Option.getD_none, Option.map_some']
    have hc := updateRecord_core ts status fields ll (newRecord jid tc)
    rw [hc.1, hc.2.1]
    rfl

/-- Witness for C6: the on-the-fly record of a fresh id gets
`created_at_ms = tc = 1` and `last_update_ms = ts = 0`. -/
theorem claim_C6_witness :
    rGet (initSrv 1).records "j" = none ∧
    (rGet (send_job_update 0 1 "j" JOB_RUNNING [] none
        (initSrv 1)).records "j").map
      (fun x => (x.created_at_ms, x.last_update_ms)) = some (1, 0) :=
  ⟨rfl, (claim_C6_last_update 1).2.2 0 1 "j" JOB_RUNNING [] none
    (initSrv 1) rfl⟩

/-- Counterexample for C6 as stated: `send_job_update` with epoch reads
`ts = 0` (line 578) and `tc = 1` (the dataclass defaults of the
on-the-fly record, line 584) leaves a record with `created_at_ms = 1`
and `last_update_ms = 0`, violating `last_update_ms ≥ created_at_ms`. -/
theorem claim_C6_cex :
    (rGet (send_job_update 0 1 "j" JOB_RUNNING [] none
        (initSrv 1)).records "j").map
      (fun x => (x.created_at_ms, x.last_update_ms,
        decide (x.last_update_ms ≥ x.created_at_ms))) =
      some (1, 0, false) := by decide

/-! Status machine invariant (claim C2). -/

theorem lastSt_concat (b : Int) : ∀ (l : List Int) (d : Int),
    lastSt (l ++ [b]) d = b := by
  intro l
  induction l with
  | nil => intro d; rfl
  | cons y ys ih =>
    intro d
    show lastSt (ys ++ [b]) y = b
    exact ih y

theorem chainFrom_snoc (edge : Int → Int → Bool) (b : Int) :
    ∀ (l : List Int) (x : Int), chainFrom edge x l = true →
    ((lastSt l x == b) || edge (lastSt l x) b) = true →
    chainFrom edge x (l ++ [b]) = true := by
  intro l
  induction l with
  | nil =>
    intro x h hs
    simp only [List.nil_append, chainFrom, Bool.and_eq_true]
    exact ⟨hs, trivial⟩
  | cons y rest ih =>
    intro x h hs
    simp only [List.cons_append, chainFrom, Bool.and_eq_true] at h ⊢
    exact ⟨h.1, ih y h.2 hs⟩

theorem pathFrom_snoc (edge : Int → Int → Bool) (l : List Int)
    (a b : Int) (hp : pathFrom edge l = true) (hl : lastSt l 0 = a)
    (hab : ((a == b) || edge a b) = true) :
    pathFrom edge (l ++ [b]) = true ∧ lastSt (l ++ [b]) 0 = b := by
  cases l with
  | nil => simp [pathFrom] at hp
  | cons h0 rest =>
    simp only [pathFrom, Bool.and_eq_true] at hp
    constructor
    · simp only [List.cons_append, pathFrom, Bool.and_eq_true]
      refine ⟨hp.1, ?_⟩
      apply chainFrom_snoc
      · exact hp.2
      · have h2 : lastSt rest h0 = a := hl
        rw [h2]
        exact hab
    · exact lastSt_concat b (h0 :: rest) 0

theorem any_runner_elim (l : List Runner) (id : String) (ph : Phase)
    (h : l.any (fun r => r.jobId == id && r.phase == ph) = true) :
    ∃ rn, rn ∈ l ∧ rn.jobId = id ∧ rn.phase = ph := by
  obtain ⟨rn, hm, hb⟩ := List.any_eq_true.mp h
  simp only [Bool.and_eq_true, beq_iff_eq] at hb
  exact ⟨rn, hm, hb.1, hb.2⟩

theorem pairwise_ids_forall (a b : Runner) (hne :  a ≠ b) :
    ∀ (l : List Runner),
    List.Pairwise (fun x y => x.jobId ≠ y.jobId) l → a ∈ l → b ∈ l →
    a.jobId ≠ b.jobId := by
  intro l
  induction l with
  | nil => intro _ ha _; exact absurd ha (List.not_mem_nil a)
  | cons x rest ih =>
    intro hp ha hb
    obtain ⟨hx, hrest⟩ := List.pairwise_cons.mp hp
    rcases List.mem_cons.mp ha with h1 | h1
    · rcases List.mem_cons.mp hb with h2 | h2
      · exact absurd (h1.trans h2.symm) hne
      · rw [h1]
        exact hx b h2
    · rcases List.mem_cons.mp hb with h2 | h2
      · rw [h2]
        exact (hx a h1).symm
      · exact ih hrest h1 h2

theorem pend_eraseP_ne (id : String) (p : PendingJob)
    (hpe : p.job_id = id) : ∀ (l : List PendingJob),
    List.Pairwise (fun a b => a.job_id ≠ b.job_id) l →
    p ∈ l.eraseP (fun j => j.job_id == id) → False := by
  intro l
  induction l with
  | nil =>
    intro _ hp
    rw [List.eraseP_nil] at hp
    exact absurd hp (List.not_mem_nil p)
  | cons q rest ih =>
    intro hnd hp
    obtain ⟨hq1, hq2⟩ := List.pairwise_cons.mp hnd
    by_cases hq : (q.job_id == id) = true
    · simp only [List.eraseP_cons, hq, cond_true] at hp
      have hqe : q.job_id = id := by simpa using hq
      exact absurd (hqe.trans hpe.symm) (hq1 p hp)
    · have hq' : (q.job_id == id) = false := Bool.eq_false_iff.mpr hq
      simp only [List.eraseP_cons, hq', cond_false] at hp
      rcases List.mem_cons.mp hp with h1 | h1
      · have hqne : q.job_id ≠ id := by simpa using hq'
        rw [← h1] at hqne
        exact hqne hpe
      · exact ih hq2 h1

theorem phaseOf_cancel_map (id : String) (r0 : Runner) :
    (if r0.jobId == id then { r0 with cancelled := true } else r0).phase =
      r0.phase := by
  split <;> rfl

theorem histOk_sju (ts tc : Int) (jid : String) (status : Int)
    (fields : FieldDict) (ll : Option String) (s : Srv)
    (hh : ∀ id r, rGet s.records id = some r →
      pathFrom amendedEdge r.hist = true ∧ lastSt r.hist 0 = r.status)
    (r0 : JobRecord) (hr0 : rGet s.records jid = some r0)
    (hstep : ((r0.status == status) || amendedEdge r0.status status) =
      true) :
    ∀ id r,
      rGet (send_job_update ts tc jid status fields ll s).records id =
        some r →
      pathFrom amendedEdge r.hist = true ∧ lastSt r.hist 0 = r.status := by
  intro id r hrr
  by_cases hid : id = jid
  · subst hid
    rw [send_job_update_rGet_self, hr0] at hrr
    simp only [Option.getD_some] at hrr
    obtain rfl := Option.some.inj hrr
    have hc := updateRecord_core ts status fields ll r0
    rw [hc.2.2.2, hc.2.2.1]
    exact pathFrom_snoc amendedEdge r0.hist r0.status status
      (hh id r0 hr0).1 (hh id r0 hr0).2 hstep
  · rw [send_job_update_rGet_ne _ _ _ _ _ _ _ _ hid] at hrr
    exact hh id r hrr

theorem tsnAux_C2Inv : ∀ (fuel : Nat) (s : Srv),
    C2Inv s → C2Inv (tsnAux fuel s) := by
  intro fuel
  induction fuel with
  | zero => intro s h; exact h
  | succ fuel ih =>
    intro s h
    rw [tsnAux]
    split
    · exact h
    · split
      · exact h
      · next job rest hp =>
        apply ih
        have hjob : job ∈ s.pending := by
          rw [hp]
          exact List.mem_cons_self _ _
        have hpnd := h.2.2.2.2.2
        rw [hp] at hpnd
        obtain ⟨hjr, hrest⟩ := List.pairwise_cons.mp hpnd
        refine ⟨h.1, ?_, ?_, ?_, ?_, hrest⟩
        · intro rn hrn r hrr
          have hrn2 : rn ∈ s.active ++ [Runner.mk job.job_id
              Phase.spawned false] := hrn
          have hrr2 : rGet s.records rn.jobId = some r := hrr
          rcases List.mem_append.mp hrn2 with h1 | h1
          · exact h.2.1 rn h1 r hrr2
          · have h2 : rn = Runner.mk job.job_id Phase.spawned false :=
              List.mem_singleton.mp h1
            constructor
            · intro _
              right
              have hji : rn.jobId = job.job_id := by rw [h2]
              rw [hji] at hrr2
              exact h.2.2.1 job hjob r hrr2
            · intro hph
              rw [h2] at hph
              exact Phase.noConfusion hph
        · intro p hpm r hrr
          have hpm2 : p ∈ rest := hpm
          have hrr2 : rGet s.records p.job_id = some r := hrr
          exact h.2.2.1 p (by rw [hp]; exact List.mem_cons_of_mem _ hpm2)
            r hrr2
        · intro p hpm rn hrn
          have hpm2 : p ∈ rest := hpm
          have hrn2 : rn ∈ s.active ++ [Runner.mk job.job_id
              Phase.spawned false] := hrn
          rcases List.mem_append.mp hrn2 with h1 | h1
          · exact h.2.2.2.1 p
              (by rw [hp]; exact List.mem_cons_of_mem _ hpm2) rn h1
          · rw [List.mem_singleton.mp h1]
            exact (hjr p hpm2).symm
        · refine List.pairwise_append.mpr ⟨h.2.2.2.2.1, ?_, ?_⟩
          · simp
          · intro a ha b hb
            rw [List.mem_singleton.mp hb]
            exact Ne.symm (h.2.2.2.1 job hjob a ha)

theorem try_start_next_C2Inv (s : Srv) (h : C2Inv s) :
    C2Inv (try_start_next s) := tsnAux_C2Inv s.pending.length s h

theorem C2Inv_submit_queued (t1 t2 : Int) (job : PendingJob) (s : Srv)
    (h : C2Inv s)
    (hA : ∀ rn ∈ s.active, rn.jobId ≠ job.job_id)
    (hB : ∀ p ∈ s.pending, p.job_id ≠ job.job_id) :
    C2Inv (send_job_update t2 t2 job.job_id JOB_QUEUED []
      (some "queued")
      { s with records := rSet s.records job.job_id (submitRecord job t1)
               pending := s.pending ++ [job] }) := by
  have hg2 : rGet (rSet s.records job.job_id (submitRecord job t1))
      job.job_id = some (submitRecord job t1) := rGet_rSet_self _ _ _
  refine ⟨?_, ?_, ?_, ?_, ?_, ?_⟩
  · refine histOk_sju _ _ _ _ _ _ _ ?_ (submitRecord job t1) ?_ ?_
    · intro id r hrr
      have hrr2 : rGet (rSet s.records job.job_id (submitRecord job t1))
          id = some r := hrr
      by_cases hid : id = job.job_id
      · subst hid
        rw [hg2] at hrr2
        obtain rfl := Option.some.inj hrr2
        exact ⟨(by decide : pathFrom amendedEdge [JOB_PENDING] = true),
          rfl⟩
      · rw [rGet_rSet_ne _ _ _ _ hid] at hrr2
        exact h.1 id r hrr2
    · exact hg2
    · exact (by decide : ((JOB_PENDING == JOB_QUEUED) ||
        amendedEdge JOB_PENDING JOB_QUEUED) = true)
  · intro rn hrn r hrr
    have hrn2 : rn ∈ s.active := hrn
    have hne := hA rn hrn2
    rw [send_job_update_rGet_ne _ _ _ _ _ _ _ _ hne] at hrr
    have hrr3 : rGet (rSet s.records job.job_id (submitRecord job t1))
        rn.jobId = some r := hrr
    rw [rGet_rSet_ne _ _ _ _ hne] at hrr3
    exact h.2.1 rn hrn2 r hrr3
  · intro p hp r hrr
    have hp2 : p ∈ s.pending ++ [job] := hp
    rcases List.mem_append.mp hp2 with h1 | h1
    · have hne := hB p h1
      rw [send_job_update_rGet_ne _ _ _ _ _ _ _ _ hne] at hrr
      have hrr3 : rGet (rSet s.records job.job_id (submitRecord job t1))
          p.job_id = some r := hrr
      rw [rGet_rSet_ne _ _ _ _ hne] at hrr3
      exact h.2.2.1 p h1 r hrr3
    · have h2 : p = job := List.mem_singleton.mp h1
      rw [h2] at hrr
      rw [send_job_update_rGet_self] at hrr
      obtain rfl := Option.some.inj hrr.symm
      exact (updateRecord_core _ _ _ _ _).2.2.1
  · intro p hp rn hrn
    have hp2 : p ∈ s.pending ++ [job] := hp
    have hrn2 : rn ∈ s.active := hrn
    rcases List.mem_append.mp hp2 with h1 | h1
    · exact h.2.2.2.1 p h1 rn hrn2
    · rw [List.mem_singleton.mp h1]
      exact Ne.symm (hA rn hrn2)
  · exact h.2.2.2.2.1
  · show List.Pairwise (fun a b => a.job_id ≠ b.job_id)
      (s.pending ++ [job])
    refine List.pairwise_append.mpr ⟨h.2.2.2.2.2, ?_, ?_⟩
    · simp
    · intro a ha b hb
      rw [List.mem_singleton.mp hb]
      exact hB a ha

theorem C2Inv_submit_spawn (t1 : Int) (job : PendingJob) (s : Srv)
    (h : C2Inv s)
    (hA : ∀ rn ∈ s.active, rn.jobId ≠ job.job_id)
    (hB : ∀ p ∈ s.pending, p.job_id ≠ job.job_id) :
    C2Inv { s with
        records := rSet s.records job.job_id (submitRecord job t1)
        active := (s.active ++
          [Runner.mk job.job_id Phase.spawned false]) } := by
  have hg2 : rGet (rSet s.records job.job_id (submitRecord job t1))
      job.job_id = some (submitRecord job t1) := rGet_rSet_self _ _ _
  refine ⟨?_, ?_, ?_, ?_, ?_, ?_⟩
  · intro id r hrr
    have hrr2 : rGet (rSet s.records job.job_id (submitRecord job t1))
        id = some r := hrr
    by_cases hid : id = job.job_id
    · subst hid
      rw [hg2] at hrr2
      obtain rfl := Option.some.inj hrr2
      exact ⟨(by decide : pathFrom amendedEdge [JOB_PENDING] = true),
        rfl⟩
    · rw [rGet_rSet_ne _ _ _ _ hid] at hrr2
      exact h.1 id r hrr2
  · intro rn hrn r hrr
    have hrn2 : rn ∈ s.active ++ [Runner.mk job.job_id Phase.spawned
      false] := hrn
    rcases List.mem_append.mp hrn2 with h1 | h1
    · have hne := hA rn h1
      have hrr3 : rGet (rSet s.records job.job_id (submitRecord job t1))
          rn.jobId = some r := hrr
      rw [rGet_rSet_ne _ _ _ _ hne] at hrr3
      exact h.2.1 rn h1 r hrr3
    · have h2 : rn = Runner.mk job.job_id Phase.spawned false :=
        List.mem_singleton.mp h1
      constructor
      · intro _
        left
        have hji : rn.jobId = job.job_id := by rw [h2]
        have hrr3 : rGet (rSet s.records job.job_id (submitRecord job
            t1)) rn.jobId = some r := hrr
        rw [hji, hg2] at hrr3
        obtain rfl := Option.some.inj hrr3.symm
        rfl
      · intro hph
        rw [h2] at hph
        exact Phase.noConfusion hph
  · intro p hp r hrr
    have hp2 : p ∈ s.pending := hp
    have hne := hB p hp2
    have hrr3 : rGet (rSet s.records job.job_id (submitRecord job t1))
        p.job_id = some r := hrr
    rw [rGet_rSet_ne _ _ _ _ hne] at hrr3
    exact h.2.2.1 p hp2 r hrr3
  · intro p hp rn hrn
    have hp2 : p ∈ s.pending := hp
    have hrn2 : rn ∈ s.active ++ [Runner.mk job.job_id Phase.spawned
      false] := hrn
    rcases List.mem_append.mp hrn2 with h1 | h1
    · exact h.2.2.2.1 p hp2 rn h1
    · rw [List.mem_singleton.mp h1]
      exact hB p hp2
  · show List.Pairwise (fun a b => a.jobId ≠ b.jobId)
      (s.active ++ [Runner.mk job.job_id Phase.spawned false])
    refine List.pairwise_append.mpr ⟨h.2.2.2.2.1, ?_, ?_⟩
    · simp
    · intro a ha b hb
      rw [List.mem_singleton.mp hb]
      exact hA a ha
  · exact h.2.2.2.2.2

theorem C2Inv_cancel_active (jid : String) (s : Srv) (h : C2Inv s) :
    C2Inv { s with active := (s.active.map (fun r =>
      if r.jobId == jid then { r with cancelled := true } else r)) } := by
  refine ⟨h.1, ?_, h.2.2.1, ?_, ?_, h.2.2.2.2.2⟩
  · intro rn hrn r hrr
    have hrn2 : rn ∈ s.active.map (fun r =>
      if r.jobId == jid then { r with cancelled := true } else r) := hrn
    obtain ⟨rn0, h0, heq⟩ := List.mem_map.mp hrn2
    have hid : rn.jobId = rn0.jobId := by
      rw [← heq]
      exact jobIdOf_cancel_map jid rn0
    have hph : rn.phase = rn0.phase := by
      rw [← heq]
      exact phaseOf_cancel_map jid rn0
    have hrr2 : rGet s.records rn0.jobId = some r := by
      rw [← hid]
      exact hrr
    have hh := h.2.1 rn0 h0 r hrr2
    exact ⟨fun hs => hh.1 (by rw [← hph]; exact hs),
      fun hs => hh.2 (by rw [← hph]; exact hs)⟩
  · intro p hp rn hrn
    have hp2 : p ∈ s.pending := hp
    have hrn2 : rn ∈ s.active.map (fun r =>
      if r.jobId == jid then { r with cancelled := true } else r) := hrn
    obtain ⟨rn0, h0, heq⟩ := List.mem_map.mp hrn2
    have hid : rn.jobId = rn0.jobId := by
      rw [← heq]
      exact jobIdOf_cancel_map jid rn0
    rw [hid]
    exact h.2.2.2.1 p hp2 rn0 h0
  · show List.Pairwise (fun a b => a.jobId ≠ b.jobId)
      (s.active.map (fun r =>
        if r.jobId == jid then { r with cancelled := true } else r))
    refine List.Pairwise.map _ ?_ h.2.2.2.2.1
    intro a b hab
    rw [jobIdOf_cancel_map, jobIdOf_cancel_map]
    exact hab

theorem C2Inv_cancel_pending (ts : Int) (jid : String) (s : Srv)
    (h : C2Inv s) (hids : IdsInv s)
    (hA : ∀ rn ∈ s.active, rn.jobId ≠ jid)
    (hP : s.pending.any (fun j => j.job_id == jid) = true) :
    C2Inv (send_job_update ts ts jid JOB_CANCELLED []
      (some "cancelled (queued)")
      { s with pending := (s.pending.eraseP
        (fun j => j.job_id == jid)) }) := by
  obtain ⟨p0, hp0, hb⟩ := List.any_eq_true.mp hP
  have hp0e : p0.job_id = jid := by simpa using hb
  have hsome := hids.2 p0 hp0
  rw [hp0e] at hsome
  obtain ⟨r0, hr0⟩ := Option.isSome_iff_exists.mp hsome
  have hq : r0.status = JOB_QUEUED :=
    h.2.2.1 p0 hp0 r0 (by rw [hp0e]; exact hr0)
  refine ⟨?_, ?_, ?_, ?_, ?_, ?_⟩
  · refine histOk_sju _ _ _ _ _ _ _ ?_ r0 ?_ ?_
    · exact h.1
    · exact hr0
    · rw [hq]
      decide
  · intro rn hrn r hrr
    have hrn2 : rn ∈ s.active := hrn
    have hne := hA rn hrn2
    rw [send_job_update_rGet_ne _ _ _ _ _ _ _ _ hne] at hrr
    exact h.2.1 rn hrn2 r hrr
  · intro p hp r hrr
    have hp2 : p ∈ s.pending.eraseP (fun j => j.job_id == jid) := hp
    by_cases hpe : p.job_id = jid
    · exact (pend_eraseP_ne jid p hpe s.pending h.2.2.2.2.2 hp2).elim
    · rw [send_job_update_rGet_ne _ _ _ _ _ _ _ _ hpe] at hrr
      exact h.2.2.1 p ((s.pending.eraseP_sublist).subset hp2) r hrr
  · intro p hp rn hrn
    have hp2 : p ∈ s.pending.eraseP (fun j => j.job_id == jid) := hp
    have hrn2 : rn ∈ s.active := hrn
    exact h.2.2.2.1 p ((s.pending.eraseP_sublist).subset hp2) rn hrn2
  · exact h.2.2.2.2.1
  · show List.Pairwise (fun a b => a.job_id ≠ b.job_id)
      (s.pending.eraseP (fun j => j.job_id == jid))
    exact List.Pairwise.sublist (s.pending.eraseP_sublist) h.2.2.2.2.2

theorem C2Inv_started (ts : Int) (jid : String) (s : Srv)
    (h : C2Inv s) (hids : IdsInv s)
    (hg : s.active.any (fun r =>
      r.jobId == jid && r.phase == Phase.spawned) = true) :
    C2Inv (send_job_update ts ts jid JOB_RUNNING [] (some "started")
      { s with active := (s.active.map (fun r =>
        if r.jobId == jid then { r with phase := Phase.running }
        else r)) }) := by
  obtain ⟨rn0, hrn0, hid0, hph0⟩ := any_runner_elim s.active jid
    Phase.spawned hg
  have hsome := hids.1 rn0 hrn0
  rw [hid0] at hsome
  obtain ⟨r0, hr0⟩ := Option.isSome_iff_exists.mp hsome
  have hst0 := (h.2.1 rn0 hrn0 r0 (by rw [hid0]; exact hr0)).1 hph0
  refine ⟨?_, ?_, ?_, ?_, ?_, ?_⟩
  · refine histOk_sju _ _ _ _ _ _ _ ?_ r0 ?_ ?_
    · exact h.1
    · exact hr0
    · rcases hst0 with hq | hq <;> (rw [hq]; decide)
  · intro rn hrn r hrr
    have hrn2 : rn ∈ s.active.map (fun r =>
      if r.jobId == jid then { r with phase := Phase.running }
      else r) := hrn
    obtain ⟨rn1, h1, heq⟩ := List.mem_map.mp hrn2
    by_cases hj : rn1.jobId = jid
    · have hcond : (rn1.jobId == jid) = true := by simp [hj]
      rw [if_pos hcond] at heq
      have hidr : rn.jobId = jid := by
        rw [← heq]
        exact hj
      have hphr : rn.phase = Phase.running := by rw [← heq]
      rw [hidr, send_job_update_rGet_self] at hrr
      obtain rfl := Option.some.inj hrr.symm
      constructor
      · intro hsp
        rw [hphr] at hsp
        exact Phase.noConfusion hsp
      · intro _
        exact (updateRecord_core _ _ _ _ _).2.2.1
    · have hcond : (rn1.jobId == jid) = false := by simp [hj]
      rw [hcond] at heq
      simp only [Bool.false_eq_true, if_false] at heq
      rw [← heq] at hrr ⊢
      rw [send_job_update_rGet_ne _ _ _ _ _ _ _ _ hj] at hrr
      exact h.2.1 rn1 h1 r hrr
  · intro p hp r hrr
    have hp2 : p ∈ s.pending := hp
    have hne : p.job_id ≠ jid := by
      intro hcon
      exact (h.2.2.2.1 p hp2 rn0 hrn0) (hcon.trans hid0.symm)
    rw [send_job_update_rGet_ne _ _ _ _ _ _ _ _ hne] at hrr
    exact h.2.2.1 p hp2 r hrr
  · intro p hp rn hrn
    have hp2 : p ∈ s.pending := hp
    have hrn2 : rn ∈ s.active.map (fun r =>
      if r.jobId == jid then { r with phase := Phase.running }
      else r) := hrn
    obtain ⟨rn1, h1, heq⟩ := List.mem_map.mp hrn2
    have hid : rn.jobId = rn1.jobId := by
      rw [← heq]
      exact jobIdOf_phase_map jid Phase.running rn1
    rw [hid]
    exact h.2.2.2.1 p hp2 rn1 h1
  · show List.Pairwise (fun a b => a.jobId ≠ b.jobId)
      (s.active.map (fun r =>
        if r.jobId == jid then { r with phase := Phase.running }
        else r))
    refine List.Pairwise.map _ ?_ h.2.2.2.2.1
    intro a b hab
    rw [jobIdOf_phase_map, jobIdOf_phase_map]
    exact hab
  · exact h.2.2.2.2.2

theorem C2Inv_info (ts : Int) (jid : String) (fields : FieldDict)
    (ll : Option String) (s : Srv) (h : C2Inv s) (hids : IdsInv s)
    (hg : s.active.any (fun r =>
      r.jobId == jid && r.phase == Phase.running) = true) :
    C2Inv (send_job_update ts ts jid JOB_RUNNING fields ll s) := by
  obtain ⟨rn0, hrn0, hid0, hph0⟩ := any_runner_elim s.active jid
    Phase.running hg
  have hsome := hids.1 rn0 hrn0
  rw [hid0] at hsome
  obtain ⟨r0, hr0⟩ := Option.isSome_iff_exists.mp hsome
  have hst0 := (h.2.1 rn0 hrn0 r0 (by rw [hid0]; exact hr0)).2 hph0
  refine ⟨?_, ?_, ?_, ?_, ?_, ?_⟩
  · refine histOk_sju _ _ _ _ _ _ _ ?_ r0 ?_ ?_
    · exact h.1
    · exact hr0
    · rw [hst0]
      decide
  · intro rn hrn r hrr
    have hrn2 : rn ∈ s.active := hrn
    by_cases hj : rn.jobId = jid
    · rw [hj, send_job_update_rGet_self] at hrr
      obtain rfl := Option.some.inj hrr.symm
      constructor
      · intro hsp
        by_cases he : rn = rn0
        · rw [he] at hsp
          rw [hph0] at hsp
          exact Phase.noConfusion hsp
        · have hnei := pairwise_ids_forall rn rn0 he s.active
            h.2.2.2.2.1 hrn2 hrn0
          exact absurd (hj.trans hid0.symm) hnei
      · intro _
        exact (updateRecord_core _ _ _ _ _).2.2.1
    · rw [send_job_update_rGet_ne _ _ _ _ _ _ _ _ hj] at hrr
      exact h.2.1 rn hrn2 r hrr
  · intro p hp r hrr
    have hp2 : p ∈ s.pending := hp
    have hne : p.job_id ≠ jid := by
      intro hcon
      exact (h.2.2.2.1 p hp2 rn0 hrn0) (hcon.trans hid0.symm)
    rw [send_job_update_rGet_ne _ _ _ _ _ _ _ _ hne] at hrr
    exact h.2.2.1 p hp2 r hrr
  · intro p hp rn hrn
    exact h.2.2.2.1 p hp rn hrn
  · exact h.2.2.2.2.1
  · exact h.2.2.2.2.2

theorem C2Inv_terminal (ts : Int) (jid : String) (status : Int)
    (fields : FieldDict) (ll : Option String) (s : Srv)
    (h : C2Inv s) (hids : IdsInv s)
    (hst : status = JOB_FINISHED ∨ status = JOB_ERROR ∨
      status = JOB_CANCELLED)
    (hg : s.active.any (fun r =>
      r.jobId == jid && r.phase == Phase.running) = true) :
    C2Inv (send_job_update ts ts jid status fields ll
      { s with active := (s.active.map (fun r =>
        if r.jobId == jid then { r with phase := Phase.done }
        else r)) }) := by
  obtain ⟨rn0, hrn0, hid0, hph0⟩ := any_runner_elim s.active jid
    Phase.running hg
  have hsome := hids.1 rn0 hrn0
  rw [hid0] at hsome
  obtain ⟨r0, hr0⟩ := Option.isSome_iff_exists.mp hsome
  have hst0 := (h.2.1 rn0 hrn0 r0 (by rw [hid0]; exact hr0)).2 hph0
  refine ⟨?_, ?_, ?_, ?_, ?_, ?_⟩
  · refine histOk_sju _ _ _ _ _ _ _ ?_ r0 ?_ ?_
    · exact h.1
    · exact hr0
    · rcases hst with hp | hp | hp <;> (rw [hst0, hp]; decide)
  · intro rn hrn r hrr
    have hrn2 : rn ∈ s.active.map (fun r =>
      if r.jobId == jid then { r with phase := Phase.done }
      else r) := hrn
    obtain ⟨rn1, h1, heq⟩ := List.mem_map.mp hrn2
    by_cases hj : rn1.jobId = jid
    · have hcond : (rn1.jobId == jid) = true := by simp [hj]
      rw [if_pos hcond] at heq
      have hphr : rn.phase = Phase.done := by rw [← heq]
      constructor
      · intro hsp
        rw [hphr] at hsp
        exact Phase.noConfusion hsp
      · intro hru
        rw [hphr] at hru
        exact Phase.noConfusion hru
    · have hcond : (rn1.jobId == jid) = false := by simp [hj]
      rw [hcond] at heq
      simp only [Bool.false_eq_true, if_false] at heq
      rw [← heq] at hrr ⊢
      rw [send_job_update_rGet_ne _ _ _ _ _ _ _ _ hj] at hrr
      exact h.2.1 rn1 h1 r hrr
  · intro p hp r hrr
    have hp2 : p ∈ s.pending := hp
    have hne : p.job_id ≠ jid := by
      intro hcon
      exact (h.2.2.2.1 p hp2 rn0 hrn0) (hcon.trans hid0.symm)
    rw [send_job_update_rGet_ne _ _ _ _ _ _ _ _ hne] at hrr
    exact h.2.2.1 p hp2 r hrr
  · intro p hp rn hrn
    have hp2 : p ∈ s.pending := hp
    have hrn2 : rn ∈ s.active.map (fun r =>
      if r.jobId == jid then { r with phase := Phase.done }
      else r) := hrn
    obtain ⟨rn1, h1, heq⟩ := List.mem_map.mp hrn2
    have hid : rn.jobId = rn1.jobId := by
      rw [← heq]
      exact jobIdOf_phase_map jid Phase.done rn1
    rw [hid]
    exact h.2.2.2.1 p hp2 rn1 h1
  · show List.Pairwise (fun a b => a.jobId ≠ b.jobId)
      (s.active.map (fun r =>
        if r.jobId == jid then { r with phase := Phase.done }
        else r))
    refine List.Pairwise.map _ ?_ h.2.2.2.2.1
    intro a b hab
    rw [jobIdOf_phase_map, jobIdOf_phase_map]
    exact hab
  · exact h.2.2.2.2.2

theorem C2Inv_exit (jid : String) (s : Srv) (h : C2Inv s) :
    C2Inv { s with active := (s.active.filter
      (fun r => !(r.jobId == jid))) } := by
  refine ⟨h.1, ?_, h.2.2.1, ?_, ?_, h.2.2.2.2.2⟩
  · intro rn hrn r hrr
    have hrn2 : rn ∈ s.active.filter (fun r => !(r.jobId == jid)) := hrn
    have hrr2 : rGet s.records rn.jobId = some r := hrr
    exact h.2.1 rn (List.mem_of_mem_filter hrn2) r hrr2
  · intro p hp rn hrn
    have hp2 : p ∈ s.pending := hp
    have hrn2 : rn ∈ s.active.filter (fun r => !(r.jobId == jid)) := hrn
    exact h.2.2.2.1 p hp2 rn (List.mem_of_mem_filter hrn2)
  · show List.Pairwise (fun a b => a.jobId ≠ b.jobId)
      (s.active.filter (fun r => !(r.jobId == jid)))
    exact List.Pairwise.sublist (List.filter_sublist _) h.2.2.2.2.1

theorem submit_job_C2Inv (t1 t2 : Int) (job : PendingJob) (s : Srv)
    (h : C2Inv s) : C2Inv (submit_job t1 t2 job s) := by
  simp only [submit_job]
  split
  · exact h
  · split
    · exact h
    · next hact =>
      rw [Bool.or_eq_true] at hact
      push_neg at hact
      have hA : ∀ rn ∈ s.active, rn.jobId ≠ job.job_id := by
        intro rn hrn hcon
        exact hact.1 (List.any_eq_true.mpr ⟨rn, hrn, by simp [hcon]⟩)
      have hB : ∀ p ∈ s.pending, p.job_id ≠ job.job_id := by
        intro p hp hcon
        exact hact.2 (List.any_eq_true.mpr ⟨p, hp, by simp [hcon]⟩)
      split
      · apply try_start_next_C2Inv
        exact C2Inv_submit_queued t1 t2 job s h hA hB
      · exact C2Inv_submit_spawn t1 job s h hA hB

theorem cancel_job_C2Inv (ts : Int) (jid : String) (s : Srv)
    (h : C2Inv s) (hids : IdsInv s) : C2Inv (cancel_job ts jid s) := by
  simp only [cancel_job]
  split
  · exact C2Inv_cancel_active jid s h
  · next hnact =>
    split
    · next hpend =>
      have hA : ∀ rn ∈ s.active, rn.jobId ≠ jid := by
        intro rn hrn hcon
        exact hnact (List.any_eq_true.mpr ⟨rn, hrn, by simp [hcon]⟩)
      apply try_start_next_C2Inv
      exact C2Inv_cancel_pending ts jid s h hids hA hpend
    · exact h

theorem runner_started_C2Inv (ts : Int) (jid : String) (s : Srv)
    (h : C2Inv s) (hids : IdsInv s) :
    C2Inv (runner_started ts jid s) := by
  simp only [runner_started]
  split
  · next hg => exact C2Inv_started ts jid s h hids hg
  · exact h

theorem runner_info_C2Inv (ts : Int) (jid : String) (fields : FieldDict)
    (ll : Option String) (s : Srv) (h : C2Inv s) (hids : IdsInv s) :
    C2Inv (runner_info ts jid fields ll s) := by
  simp only [runner_info]
  split
  · next hg => exact C2Inv_info ts jid fields ll s h hids hg
  · exact h

theorem runner_terminal_C2Inv (ts : Int) (jid : String) (status : Int)
    (fields : FieldDict) (ll : Option String) (s : Srv)
    (h : C2Inv s) (hids : IdsInv s) :
    C2Inv (runner_terminal ts jid status fields ll s) := by
  simp only [runner_terminal]
  split
  · next hg =>
    exact C2Inv_terminal ts jid status fields ll s h hids hg.1 hg.2
  · exact h

theorem runner_exit_C2Inv (jid : String) (s : Srv) (h : C2Inv s) :
    C2Inv (runner_exit jid s) := by
  simp only [runner_exit]
  split
  · apply try_start_next_C2Inv
    exact C2Inv_exit jid s h
  · exact h

theorem applyOp_C2Inv (op : SrvOp) (s : Srv) (h : C2Inv s)
    (hids : IdsInv s) : C2Inv (applyOp op s) := by
  cases op with
  | submit t1 t2 job => exact submit_job_C2Inv t1 t2 job s h
  | cancel ts jid => exact cancel_job_C2Inv ts jid s h hids
  | started ts jid => exact runner_started_C2Inv ts jid s h hids
  | info ts jid fields ll =>
    exact runner_info_C2Inv ts jid fields ll s h hids
  | terminal ts jid status fields ll =>
    exact runner_terminal_C2Inv ts jid status fields ll s h hids
  | exit jid => exact runner_exit_C2Inv jid s h

theorem Reach_C2Inv (m : Int) (s : Srv) (h : Reach (initSrv m) s) :
    C2Inv s := by
  induction h with
  | refl =>
    refine ⟨?_, ?_, ?_, ?_, List.Pairwise.nil, List.Pairwise.nil⟩
    · intro id r hr
      have hr2 : (none : Option JobRecord) = some r := hr
      exact Option.noConfusion hr2
    · intro rn hrn
      have hrn2 : rn ∈ ([] : List Runner) := hrn
      exact absurd hrn2 (List.not_mem_nil rn)
    · intro p hp
      have hp2 : p ∈ ([] : List PendingJob) := hp
      exact absurd hp2 (List.not_mem_nil p)
    · intro p hp
      have hp2 : p ∈ ([] : List PendingJob) := hp
      exact absurd hp2 (List.not_mem_nil p)
  | tail h1 h2 ih =>
    obtain ⟨op, hok, rfl⟩ := h2
    exact applyOp_C2Inv op _ ih (Reach_IdsInv m _ h1)

theorem applyOp_terminal_frozen (op : SrvOp) (s : Srv) (id : String)
    (r : JobRecord) (h : C2Inv s) (hr : rGet s.records id = some r)
    (hterm : isTerminal r.status = true) :
    rGet (applyOp op s).records id = some r := by
  cases op with
  | submit t1 t2 job =>
    show rGet (submit_job t1 t2 job s).records id = some r
    by_cases hq : id = job.job_id
    · have hs : (rGet s.records job.job_id).isSome = true := by
        rw [← hq, hr]
        rfl
      rw [submit_job, if_pos hs]
      exact hr
    · simp only [submit_job]
      split
      · exact hr
      · split
        · exact hr
        · split
          · rw [(try_start_next_frame _).1]
            show rGet (send_job_update t2 t2 job.job_id JOB_QUEUED []
              (some "queued")
              { s with
                records := rSet s.records job.job_id (submitRecord job t1),
                pending := s.pending ++ [job] }).records id = some r
            rw [send_job_update_rGet_ne _ _ _ _ _ _ _ _ hq]
            show rGet (rSet s.records job.job_id (submitRecord job t1))
              id = some r
            rw [rGet_rSet_ne _ _ _ _ hq]
            exact hr
          · show rGet (rSet s.records job.job_id (submitRecord job t1))
              id = some r
            rw [rGet_rSet_ne _ _ _ _ hq]
            exact hr
  | cancel ts jid =>
    show rGet (cancel_job ts jid s).records id = some r
    simp only [cancel_job]
    split
    · exact hr
    · split
      · next hpend =>
        have hne : id ≠ jid := by
          intro hcon
          obtain ⟨p0, hp0, hb⟩ := List.any_eq_true.mp hpend
          have hp0e : p0.job_id = jid := by simpa using hb
          have hq : r.status = JOB_QUEUED :=
            h.2.2.1 p0 hp0 r (by rw [hp0e, ← hcon]; exact hr)
          rw [hq] at hterm
          exact absurd hterm (by decide)
        rw [(try_start_next_frame _).1]
        show rGet (send_job_update ts ts jid JOB_CANCELLED []
          (some "cancelled (queued)")
          { s with
            pending := s.pending.eraseP
              (fun j => j.job_id == jid) }).records id = some r
        rw [send_job_update_rGet_ne _ _ _ _ _ _ _ _ hne]
        exact hr
      · exact hr
  | started ts jid =>
    show rGet (runner_started ts jid s).records id = some r
    simp only [runner_started]
    split
    · next hg =>
      have hne : id ≠ jid := by
        intro hcon
        obtain ⟨rn0, hrn0, hid0, hph0⟩ := any_runner_elim s.active jid
          Phase.spawned hg
        have hr2 : rGet s.records rn0.jobId = some r := by
          rw [hid0, ← hcon]
          exact hr
        rcases (h.2.1 rn0 hrn0 r hr2).1 hph0 with hq | hq <;>
          (rw [hq] at hterm; exact absurd hterm (by decide))
      show rGet (send_job_update ts ts jid JOB_RUNNING []
        (some "started") { s with active := (s.active.map (fun r =>
          if r.jobId == jid then { r with phase := Phase.running }
          else r)) }).records id = some r
      rw [send_job_update_rGet_ne _ _ _ _ _ _ _ _ hne]
      exact hr
    · exact hr
  | info ts jid fields ll =>
    show rGet (runner_info ts jid fields ll s).records id = some r
    simp only [runner_info]
    split
    · next hg =>
      have hne : id ≠ jid := by
        intro hcon
        obtain ⟨rn0, hrn0, hid0, hph0⟩ := any_runner_elim s.active jid
          Phase.running hg
        have hr2 : rGet s.records rn0.jobId = some r := by
          rw [hid0, ← hcon]
          exact hr
        have hq := (h.2.1 rn0 hrn0 r hr2).2 hph0
        rw [hq] at hterm
        exact absurd hterm (by decide)
      rw [send_job_update_rGet_ne _ _ _ _ _ _ _ _ hne]
      exact hr
    · exact hr
  | terminal ts jid status fields ll =>
    show rGet (runner_terminal ts jid status fields ll s).records id =
      some r
    simp only [runner_terminal]
    split
    · next hg =>
      have hne : id ≠ jid := by
        intro hcon
        obtain ⟨rn0, hrn0, hid0, hph0⟩ := any_runner_elim s.active jid
          Phase.running hg.2
        have hr2 : rGet s.records rn0.jobId = some r := by
          rw [hid0, ← hcon]
          exact hr
        have hq := (h.2.1 rn0 hrn0 r hr2).2 hph0
        rw [hq] at hterm
        exact absurd hterm (by decide)
      show rGet (send_job_update ts ts jid status fields ll
        { s with active := (s.active.map (fun r =>
          if r.jobId == jid then { r with phase := Phase.done }
          else r)) }).records id = some r
      rw [send_job_update_rGet_ne _ _ _ _ _ _ _ _ hne]
      exact hr
    · exact hr
  | exit jid =>
    show rGet (runner_exit jid s).records id = some r
    simp only [runner_exit]
    split
    · rw [(try_start_next_frame _).1]
      exact hr
    · exact hr

theorem Reach_terminal_frozen (m : Int) (s s' : Srv) (id : String)
    (r : JobRecord) (h0 : Reach (initSrv m) s) (h : Reach s s')
    (hr : rGet s.records id = some r)
    (hterm : isTerminal r.status = true) :
    rGet s'.records id = some r := by
  induction h with
  | refl => exact hr
  | tail h1 h2 ih =>
    obtain ⟨op, hok, rfl⟩ := h2
    exact applyOp_terminal_frozen op _ id r
      (Reach_C2Inv m _ (Relation.ReflTransGen.trans h0 h1)) ih hterm

theorem reach_cexTrace : Reach (initSrv 1) cexTrace :=
  Relation.ReflTransGen.tail
    (Relation.ReflTransGen.tail
      (Relation.ReflTransGen.tail
        (Relation.ReflTransGen.tail Relation.ReflTransGen.refl
          ⟨SrvOp.submit 1 1 jobW,
            by simp only [opOk, initSrv]; decide, rfl⟩)
        ⟨SrvOp.started 2 "j1", by simp only [opOk]; decide, rfl⟩)
      ⟨SrvOp.submit 3 3 jobW2, by simp only [opOk]; decide, rfl⟩)
    ⟨SrvOp.cancel 4 "j2", by simp only [opOk]; decide, rfl⟩

/-- C2 (amended): in every reachable state, every record's status
history is a path of the amended machine (PENDING to QUEUED, RUNNING or
CANCELLED; QUEUED to RUNNING or CANCELLED; RUNNING to FINISHED, ERROR,
CANCELLED or STOPPED; re-emissions of the current status allowed), so
at most one transition enters a terminal status; and once a record is
terminal it never changes again (in particular `status`, `started_at`
and `finished_at` are frozen).  The code takes PENDING to RUNNING when a
slot is free (no QUEUED )and QUEUED to CANCELLED for a cancelled queued
job, edges absent from the machine of section 4.5 as the claim reads
it. -/
theorem claim_C2_status_machine (m : Int) (s : Srv)
    (h : Reach (initSrv m) s) :
    (∀ id r, rGet s.records id = some r →
      pathFrom amendedEdge r.hist = true) ∧
    (∀ s' id r r', Reach s s' → rGet s.records id = some r →
      isTerminal r.status = true → rGet s'.records id = some r' →
      r' = r) := by
  constructor
  · intro id r hr
    exact ((Reach_C2Inv m s h).1 id r hr).1
  · intro s' id r r' hss' hr hterm hr'
    have h2 := Reach_terminal_frozen m s s' id r h hss' hr hterm
    rw [h2] at hr'
    exact (Option.some.inj hr').symm

/-- Witness for C2: in the concrete reachable trace `cexTrace`, the
history of job `j2` is a path of the amended machine. -/
theorem claim_C2_witness :
    (rGet cexTrace.records "j2").map
      (fun r => pathFrom amendedEdge r.hist) = some true := by
  cases hr : rGet cexTrace.records "j2" with
  | none => exact absurd hr (by decide)
  | some r =>
    rw [Option.map_some']
    rw [(claim_C2_status_machine 1 cexTrace reach_cexTrace).1 "j2" r hr]

/-- Counterexample for C2 as stated: in the reachable state `cexTrace`,
job `j1` (started on a free slot) has history PENDING, RUNNING and job
`j2` (queued then cancelled) has history PENDING, QUEUED, CANCELLED;
neither is a path of the section-4.5 machine as the claim words it
(PENDING to RUNNING and QUEUED to CANCELLED are not among its edges). -/
theorem claim_C2_cex :
    Reach (initSrv 1) cexTrace ∧
    (rGet cexTrace.records "j1").map
      (fun r => (r.hist, pathFrom specEdge r.hist)) =
      some ([JOB_PENDING, JOB_RUNNING], false) ∧
    (rGet cexTrace.records "j2").map
      (fun r => (r.hist, pathFrom specEdge r.hist)) =
      some ([JOB_PENDING, JOB_QUEUED, JOB_CANCELLED], false) :=
  ⟨reach_cexTrace, by decide, by decide⟩

/-! Short bestmove lines (claim C10). -/

theorem parse_bestmove_short (line : String)
    (h : (pyTokens line).length < 2) : parse_bestmove_line line = [] := by
  cases ht : pyTokens line with
  | nil => simp [parse_bestmove_line, ht]
  | cons a tl =>
    cases tl with
    | nil => simp [parse_bestmove_line, ht]
    | cons b tl2 =>
      exfalso
      rw [ht] at h
      simp only [List.length_cons] at h
      omega

theorem hasKey_map_overwrite (k : String) (v : JsonVal) (k2 : String) :
    ∀ d : FieldDict,
      hasKey (d.map (fun p => if p.1 == k then (k, v) else p)) k2 =
      hasKey d k2 := by
  intro d
  induction d with
  | nil => rfl
  | cons p rest ih =>
    simp only [List.map_cons, hasKey, List.any_cons] at ih ⊢
    by_cases h1 : (p.1 == k) = true
    · have h2 : p.1 = k := by simpa using h1
      rw [if_pos h1, ih, h2]
    · rw [if_neg h1, ih]

theorem hasKey_pySet (d : FieldDict) (k : String) (v : JsonVal)
    (k2 : String) :
    hasKey (pySet d k v) k2 = ((k == k2) || hasKey d k2) := by
  rw [pySet]
  split
  · next hk =>
    rw [hasKey_map_overwrite]
    by_cases h2 : (k == k2) = true
    · have h3 : k = k2 := by simpa using h2
      rw [h2, Bool.true_or, ← h3]
      exact hk
    · have h3 : (k == k2) = false := Bool.eq_false_iff.mpr h2
      rw [h3, Bool.false_or]
  · show (d ++ [(k, v)]).any (fun p => p.1 == k2) = _
    rw [List.any_append]
    have h4 : ([((k : String), v)].any (fun p => p.1 == k2)) =
        (k == k2) := by simp
    rw [h4, Bool.or_comm]
    rfl

theorem hasKey_pyUpdate (k : String) : ∀ (b a : FieldDict),
    hasKey (pyUpdate a b) k = (hasKey a k || hasKey b k) := by
  intro b
  induction b with
  | nil =>
    intro a
    show hasKey a k = (hasKey a k || hasKey [] k)
    rw [show hasKey ([] : FieldDict) k = false from rfl, Bool.or_false]
  | cons p rest ih =>
    intro a
    show hasKey (pyUpdate (pySet a p.1 p.2) rest) k = _
    rw [ih (pySet a p.1 p.2), hasKey_pySet]
    show ((p.1 == k || hasKey a k) || hasKey rest k) =
      (hasKey a k || (p.1 == k || hasKey rest k))
    cases p.1 == k <;> cases hasKey a k <;> cases hasKey rest k <;> rfl

theorem iGet_mem : ∀ (m : List (Int × FieldDict)) (kk : Int)
    (v : FieldDict), iGet m kk = some v → (kk, v) ∈ m := by
  intro m
  induction m with
  | nil => intro kk v h; exact Option.noConfusion h
  | cons p rest ih =>
    intro kk v h
    obtain ⟨k2, d⟩ := p
    by_cases hk : k2 = kk
    · subst hk
      simp only [iGet, if_pos rfl] at h
      obtain rfl := Option.some.inj h
      exact List.mem_cons_self _ _
    · simp only [iGet, if_neg hk] at h
      exact List.mem_cons_of_mem _ (ih kk v h)

theorem mem_iSet (m : List (Int × FieldDict)) (kk : Int) (v : FieldDict)
    (p : Int × FieldDict) (h : p ∈ iSet m kk v) :
    p = (kk, v) ∨ p ∈ m := by
  rw [iSet] at h
  split at h
  · obtain ⟨q, hq, heq⟩ := List.mem_map.mp h
    by_cases hk : (q.1 == kk) = true
    · rw [if_pos hk] at heq
      left
      exact heq.symm
    · rw [if_neg hk] at heq
      right
      rw [← heq]
      exact hq
  · rcases List.mem_append.mp h with h1 | h1
    · right
      exact h1
    · left
      exact List.mem_singleton.mp h1

theorem dGet_none_of_not_hasKey (k : String) : ∀ (d : FieldDict),
    hasKey d k = false → dGet d k = none := by
  intro d
  induction d with
  | nil => intro _; rfl
  | cons p rest ih =>
    intro h
    simp only [hasKey, List.any_cons, Bool.or_eq_false_iff] at h
    simp only [dGet]
    rw [if_neg (by simp [h.1])]
    exact ih h.2

theorem hasKey_msgFold (fields : FieldDict)
    (hbm : dGet fields "bestmove" = none) :
    ∀ (keys : List String) (m : FieldDict),
    hasKey m "bestmove" = false →
    hasKey (keys.foldl (fun m k => match dGet fields k with
      | some v => pySet m k v
      | none => m) m) "bestmove" = false := by
  intro keys
  induction keys with
  | nil => intro m hm; exact hm
  | cons k ks ih =>
    intro m hm
    simp only [List.foldl_cons]
    cases hd : dGet fields k with
    | none => exact ih m hm
    | some v =>
      refine ih (pySet m k v) ?_
      rw [hasKey_pySet]
      by_cases hk : k = "bestmove"
      · rw [hk] at hd
        rw [hbm] at hd
        exact Option.noConfusion hd
      · have h2 : (k == "bestmove") = false := by simp [hk]
        rw [h2, Bool.false_or]
        exact hm

theorem scanInfo_no_bm_aux : ∀ (n : Nat) (toks : List String)
    (out : FieldDict), toks.length ≤ n →
    hasKey out "bestmove" = false →
    ∀ parsed, scanInfo toks out = Except.ok parsed →
      hasKey parsed "bestmove" = false := by
  intro n
  induction n with
  | zero =>
    intro toks out h hout parsed hok
    match toks with
    | [] =>
      have h2 : (Except.ok out : Except String FieldDict) =
        Except.ok parsed := hok
      rw [← Except.ok.inj h2]
      exact hout
  | succ n ih =>
    intro toks out h hout parsed hok
    match toks with
    | [] =>
      have h2 : (Except.ok out : Except String FieldDict) =
        Except.ok parsed := hok
      rw [← Except.ok.inj h2]
      exact hout
    | [t] =>
      have h2 : (Except.ok out : Except String FieldDict) =
        Except.ok parsed := hok
      rw [← Except.ok.inj h2]
      exact hout
    | tok :: v :: rest2 =>
      have hlen : rest2.length ≤ n := by simp at h; omega
      rw [scanInfo.eq_def] at hok
      by_cases h1 : tok = "depth"
      · simp only [h1, if_pos, if_true] at hok
        cases hv : (pyInt? v).isSome with
        | true =>
          rw [if_pos hv] at hok
          exact ih rest2 _ hlen (by rw [hasKey_pySet, hout]; decide)
            parsed hok
        | false =>
          rw [if_neg (by simp [hv])] at hok
          exact Except.noConfusion hok
      · simp only [h1, if_neg, if_false] at hok
        by_cases h2 : tok = "seldepth"
        · rw [if_pos h2] at hok
          cases hv : (pyInt? v).isSome with
          | true =>
            rw [if_pos hv] at hok
            exact ih rest2 _ hlen (by rw [hasKey_pySet, hout]; decide)
              parsed hok
          | false =>
            rw [if_neg (by simp [hv])] at hok
            exact Except.noConfusion hok
        · rw [if_neg h2] at hok
          by_cases h3 : tok = "score"
          · rw [if_pos h3] at hok
            match rest2 with
            | [] =>
              have hx : (Except.ok out : Except String FieldDict) =
                Except.ok parsed := hok
              rw [← Except.ok.inj hx]
              exact hout
            | sval :: rest3 =>
              have hlen3 : rest3.length ≤ n := by simp at hlen; omega
              have hok2 : (if v = "cp" then
                  (if (pyInt? sval).isSome = true then
                    scanInfo rest3 (pySet out "score_cp"
                      (JsonVal.i ((pyInt? sval).getD 0)))
                  else Except.error (intErr sval))
                else if v = "mate" then
                  (if (pyInt? sval).isSome = true then
                    scanInfo rest3 (pySet out "score_mate"
                      (JsonVal.i ((pyInt? sval).getD 0)))
                  else Except.error (intErr sval))
                else scanInfo rest3 out) = Except.ok parsed := hok
              by_cases hcp : v = "cp"
              · rw [if_pos hcp] at hok2
                cases hv : (pyInt? sval).isSome with
                | true =>
                  rw [if_pos hv] at hok2
                  exact ih rest3 _ hlen3
                    (by rw [hasKey_pySet, hout]; decide) parsed hok2
                | false =>
                  rw [if_neg (by simp [hv])] at hok2
                  exact Except.noConfusion hok2
              · rw [if_neg hcp] at hok2
                by_cases hmate : v = "mate"
                · rw [if_pos hmate] at hok2
                  cases hv : (pyInt? sval).isSome with
                  | true =>
                    rw [if_pos hv] at hok2
                    exact ih rest3 _ hlen3
                      (by rw [hasKey_pySet, hout]; decide) parsed hok2
                  | false =>
                    rw [if_neg (by simp [hv])] at hok2
                    exact Except.noConfusion hok2
                · rw [if_neg hmate] at hok2
                  exact ih rest3 _ hlen3 hout parsed hok2
          · rw [if_neg h3] at hok
            by_cases h4 : tok = "nodes"
            · rw [if_pos h4] at hok
              cases hv : (pyInt? v).isSome with
              | true =>
                rw [if_pos hv] at hok
                exact ih rest2 _ hlen (by rw [hasKey_pySet, hout]; decide)
                  parsed hok
              | false =>
                rw [if_neg (by simp [hv])] at hok
                exact Except.noConfusion hok
            · rw [if_neg h4] at hok
              by_cases h5 : tok = "nps"
              · rw [if_pos h5] at hok
                cases hv : (pyInt? v).isSome with
                | true =>
                  rw [if_pos hv] at hok
                  exact ih rest2 _ hlen
                    (by rw [hasKey_pySet, hout]; decide) parsed hok
                | false =>
                  rw [if_neg (by simp [hv])] at hok
                  exact Except.noConfusion hok
              · rw [if_neg h5] at hok
                by_cases h6 : tok = "multipv"
                · rw [if_pos h6] at hok
                  cases hv : (pyInt? v).isSome with
                  | true =>
                    rw [if_pos hv] at hok
                    exact ih rest2 _ hlen
                      (by rw [hasKey_pySet, hout]; decide) parsed hok
                  | false =>
                    rw [if_neg (by simp [hv])] at hok
                    exact Except.noConfusion hok
                · rw [if_neg h6] at hok
                  by_cases h7 : tok = "pv"
                  · rw [if_pos h7] at hok
                    rw [← Except.ok.inj hok, hasKey_pySet, hout]
                    decide
                  · rw [if_neg h7] at hok
                    exact ih (v :: rest2) out (by simp at h ⊢; omega)
                      hout parsed hok

theorem parse_info_no_bm (line : String) (parsed : FieldDict)
    (h : parse_info_line line = Except.ok parsed) :
    hasKey parsed "bestmove" = false :=
  scanInfo_no_bm_aux (pyTokens line).length (pyTokens line) []
    (Nat.le_refl _) rfl parsed h

theorem streamLoop_short_bm (w : EngineWorld) (jobId : String) :
    ∀ (lines : List String) (iter : Nat) (st0 : DrvSt),
    (∀ p ∈ st0.lastByMpv, hasKey p.2 "bestmove" = false) →
    ∀ bl, (streamLoop w jobId lines iter st0).bmLine = some bl →
      (pyTokens bl).length < 2 →
      hasKey (streamLoop w jobId lines iter st0).fields "bestmove" =
        false := by
  intro lines
  induction lines with
  | nil =>
    intro iter st0 hinv bl hbl hshort
    cases hstop : stopCheck w iter st0.sent with
    | error e =>
      obtain ⟨s2, msg⟩ := e
      rw [streamLoop_nil_err w jobId iter st0 s2 msg hstop] at hbl
      have h2 : (none : Option String) = some bl := hbl
      exact Option.noConfusion h2
    | ok sent1 =>
      rw [streamLoop_nil_ok w jobId iter st0 sent1 hstop] at hbl
      have h2 : (none : Option String) = some bl := hbl
      exact Option.noConfusion h2
  | cons line rest ih =>
    intro iter st0 hinv bl hbl hshort
    cases hstop : stopCheck w iter st0.sent with
    | error e =>
      obtain ⟨s2, msg⟩ := e
      rw [streamLoop_cons_err w jobId line rest iter st0 s2 msg hstop]
        at hbl
      have h2 : (none : Option String) = some bl := hbl
      exact Option.noConfusion h2
    | ok sent1 =>
      rw [streamLoop_cons_ok w jobId line rest iter st0 sent1 hstop]
        at hbl ⊢
      by_cases hempty : pyStrip line = ""
      · simp only [if_pos hempty] at hbl ⊢
        exact ih _ _ hinv bl hbl hshort
      · simp only [if_neg hempty] at hbl ⊢
        by_cases hinfo : pyStartsWith (pyStrip line) "info"
        · simp only [if_pos hinfo] at hbl ⊢
          cases hp : parse_info_line (pyStrip line) with
          | error m2 =>
            rw [hp] at hbl
            have h2 : (none : Option String) = some bl := hbl
            exact Option.noConfusion h2
          | ok parsed =>
            rw [hp] at hbl
            refine ih _ _ ?_ bl hbl hshort
            intro p hpm
            rcases mem_iSet _ _ _ p hpm with h1 | h1
            · rw [h1]
              rw [hasKey_pySet, hasKey_pyUpdate]
              have hparsed := parse_info_no_bm (pyStrip line) parsed hp
              rw [hparsed]
              have hbase : hasKey ((iGet st0.lastByMpv
                  (jvToInt ((dGet parsed "multipv").getD
                    (JsonVal.i 1)))).getD []) "bestmove" = false := by
                cases hg : iGet st0.lastByMpv
                    (jvToInt ((dGet parsed "multipv").getD
                      (JsonVal.i 1))) with
                | none => rfl
                | some d =>
                  simp only [Option.getD_some]
                  exact hinv _ (iGet_mem _ _ _ hg)
              rw [hbase]
              decide
            · exact hinv p h1
        · simp only [if_neg hinfo] at hbl ⊢
          by_cases hbm : pyStartsWith (pyStrip line) "bestmove"
          · simp only [if_pos hbm] at hbl ⊢
            have h2 : some (pyStrip line) = some bl := hbl
            have h3 : pyStrip line = bl := Option.some.inj h2
            have hbm0 : parse_bestmove_line (pyStrip line) = [] := by
              rw [h3]
              exact parse_bestmove_short bl hshort
            rw [hasKey_pySet, hasKey_pyUpdate, hbm0]
            have hbase : hasKey ((iGet st0.lastByMpv 1).getD [])
                "bestmove" = false := by
              cases hg : iGet st0.lastByMpv 1 with
              | none => rfl
              | some d =>
                simp only [Option.getD_some]
                exact hinv _ (iGet_mem _ _ _ hg)
            rw [hbase]
            decide
          · simp only [if_neg hbm] at hbl ⊢
            exact ih _ _ hinv bl hbl hshort

/-- C10: a line that splits into fewer than two whitespace tokens (e.g.
the bare `"bestmove"`) makes `parse_bestmove_line` return the empty
map; the terminal update of such a run therefore carries no `bestmove`
field (the merged `last_by_mpv` snapshots hold only info keys), the
broadcast `job_update` message filter emits none, and
`send_job_update`'s record merge leaves `record.bestmove` unchanged. -/
theorem claim_C10_short_bestmove_line :
    (∀ line : String, (pyTokens line).length < 2 →
      parse_bestmove_line line = []) ∧
    (∀ (w : EngineWorld) (threads : Int) (job : PendingJob)
      (bl : String), (runDriver w threads job).bmLine = some bl →
      (pyTokens bl).length < 2 →
      hasKey (runDriver w threads job).fields "bestmove" = false) ∧
    (∀ fields : FieldDict, hasKey fields "bestmove" = false →
      hasKey (msgFields fields) "bestmove" = false) ∧
    (∀ (ts status : Int) (fields : FieldDict) (ll : Option String)
      (rec0 : JobRecord), hasKey fields "bestmove" = false →
      (updateRecord ts status fields ll rec0).bestmove =
        rec0.bestmove) := by
  refine ⟨parse_bestmove_short, ?_, ?_, ?_⟩
  · intro w threads job bl hbl hshort
    rw [runDriver.eq_def] at hbl ⊢
    cases hspawn : w.spawnErr with
    | some m =>
      rw [hspawn] at hbl
      have h2 : (none : Option String) = some bl := hbl
      exact Option.noConfusion h2
    | none =>
      rw [hspawn] at hbl
      cases hinit : initPhase w threads job with
      | error e =>
        obtain ⟨sent, m⟩ := e
        rw [hinit] at hbl
        have h2 : (none : Option String) = some bl := hbl
        exact Option.noConfusion h2
      | ok p =>
        obtain ⟨sent, lines⟩ := p
        rw [hinit] at hbl
        exact streamLoop_short_bm w job.job_id lines 0 ⟨sent, [], []⟩
          (by intro p hp; exact absurd hp (List.not_mem_nil p)) bl hbl
          hshort
  · intro fields hf
    exact hasKey_msgFold fields
      (dGet_none_of_not_hasKey "bestmove" fields hf)
      ["multipv", "depth", "seldepth", "score_cp", "score_mate",
       "nodes", "nps", "bestmove", "pv"] [] rfl
  · intro ts status fields ll rec0 hf
    exact updateRecord_bestmove ts status fields ll rec0 hf

/-- Witness for C10: a run whose engine emits the bare line
`"bestmove"`. -/
theorem claim_C10_witness :
    (runDriver ⟨none, none, ["uciok", "readyok", "bestmove"], none⟩ 1
      jobW).bmLine = some "bestmove" ∧
    (pyTokens "bestmove").length < 2 ∧
    parse_bestmove_line "bestmove" = [] ∧
    hasKey (runDriver ⟨none, none, ["uciok", "readyok", "bestmove"],
      none⟩ 1 jobW).fields "bestmove" = false :=
  ⟨by decide, by decide,
   claim_C10_short_bestmove_line.1 "bestmove" (by decide),
   claim_C10_short_bestmove_line.2.1
     ⟨none, none, ["uciok", "readyok", "bestmove"], none⟩ 1 jobW
     "bestmove" (by decide) (by decide)⟩

end SFCluster
